import Mathlib

/-!
Verification development for the goproxy proxy-pool manager.

The Go sources are shallowly embedded below.  The authoritative revision of
`db.go` is the one whose schema uses the `is_unique` column and whose
`GetAvailableProxy` treats mobilehop entries with an unconditional reset
(`src/db.go`, second revision in the file, lines 333-1098); `check.go`
provides `callChangeURL`.  Wall-clock instants are embedded as `Int`
(unix seconds), database rows as a Lean structure, and the external
HTTP/vendor calls as explicit oracle values passed to the functions that
perform them.
-/

set_option maxRecDepth 4000

deriving instance DecidableEq for Except

namespace GoProxy

/-- Proxy kinds.  `tmproxy`, `static`, `mobilehop`, `sticky` and `kiotproxy`
are the kinds exercised by the repository's own tests; `ipv4xoay` is the
further kind named by the spec (section 3 and section 6), whose vendor
adapter `service/ipv4xoay.go` is part of the repository. -/
inductive ProxyType
  | tmproxy
  | static
  | mobilehop
  | sticky
  | kiotproxy
  | ipv4xoay
  deriving DecidableEq, Repr

/-- One row of the `proxies` table (equivalently the cached `Proxy` struct):
`type`, `proxy_str`, `api_key`, `unique_key`, `min_time`, `change_url`,
`running`, `used`, `is_unique`, `last_changed` (unix seconds), `last_ip`,
`error`, `updated_at`. -/
structure Proxy where
  id : Int
  type : ProxyType
  proxyStr : String
  apiKey : String
  uniqueKey : String
  minTime : Int
  changeUrl : String
  running : Bool
  used : Int
  unique : Bool
  lastChanged : Int
  lastIP : String
  error : String
  updatedAt : Int
  deriving DecidableEq, Repr

/-- Eligibility predicate of `GetAvailableProxy`, transcribed from the SQL
WHERE clause (db.go):

    WHERE (error IS NULL OR error='')
    AND ( (is_unique = 0)
       OR (type = 'static' AND running=0 AND used < ?)
       OR (type = 'mobilehop' AND running=0)
       OR (type NOT IN ('static', 'mobilehop') AND is_unique = 1 AND running=0
           AND (used < ? OR (min_time = 0 OR (? - last_changed >= min_time)))) )

The `last_changed IS NULL` disjunct of the SQL disappears here because the
embedding keeps `last_changed` total: every row written by `upsertProxy`
carries a concrete `last_changed`. -/
def eligible (maxUsed now : Int) (p : Proxy) : Bool :=
  (p.error == "") &&
    ((!p.unique) ||
      (p.type == ProxyType.static && !p.running && decide (p.used < maxUsed)) ||
      (p.type == ProxyType.mobilehop && !p.running) ||
      (!(p.type == ProxyType.static) && !(p.type == ProxyType.mobilehop) && p.unique &&
        !p.running &&
        (decide (p.used < maxUsed) || (p.minTime == 0) ||
          decide (now - p.lastChanged ≥ p.minTime))))

/-- ASCII whitespace recognised by `strings.TrimSpace` for the inputs that
occur here. -/
def isSpaceChar (c : Char) : Bool :=
  c = ' ' || c = '\t' || c = '\n' || c = '\r' || c = '\x0b' || c = '\x0c'

/-- Go `strings.TrimSpace` (ASCII inputs). -/
def trimStr (s : String) : String :=
  String.mk (((s.data.dropWhile isSpaceChar).reverse.dropWhile isSpaceChar).reverse)

/-- Helper for `splitChar`: accumulate the current segment (reversed). -/
def splitCharAux (c : Char) : List Char → List Char → List (List Char)
  | [], acc => [acc.reverse]
  | x :: xs, acc =>
      if x = c then acc.reverse :: splitCharAux c xs []
      else splitCharAux c xs (x :: acc)

/-- Go `strings.Split` with a one-character separator (the separators used
by the sources are `"|"` and `":"`). -/
def splitChar (c : Char) (s : String) : List String :=
  (splitCharAux c s.data []).map String.mk

/-- Whether the first list is a prefix of the second. -/
def isPrefixList : List Char → List Char → Bool
  | [], _ => true
  | _ :: _, [] => false
  | p :: ps, x :: xs => p = x && isPrefixList ps xs

/-- Helper for `containsSub`: pattern occurs at some position. -/
def hasSubList (pat : List Char) : List Char → Bool
  | [] => isPrefixList pat []
  | x :: xs => isPrefixList pat (x :: xs) || hasSubList pat xs

/-- Go `strings.Contains`. -/
def containsSub (s pat : String) : Bool :=
  hasSubList pat.data s.data

/-- Helper for `replaceStr`, fuelled to stay structurally recursive. -/
def replaceListF (pat rep : List Char) : Nat → List Char → List Char
  | 0, s => s
  | _, [] => []
  | fuel + 1, x :: xs =>
      if isPrefixList pat (x :: xs) then
        rep ++ replaceListF pat rep fuel (List.drop pat.length (x :: xs))
      else x :: replaceListF pat rep fuel xs

/-- Go `strings.ReplaceAll` for a non-empty pattern: leftmost-first,
non-overlapping replacement of every occurrence. -/
def replaceStr (s pat rep : String) : String :=
  String.mk (replaceListF pat.data rep.data s.data.length s.data)

/-- First `n` characters of a string (Go slice `s[:n]` on ASCII data). -/
def strTake (s : String) (n : Nat) : String :=
  String.mk (s.data.take n)

/-- Character for one hex nibble, as produced by Go's `hex.EncodeToString`
(lowercase). -/
def hexChar (n : Nat) : Char :=
  if n < 10 then Char.ofNat (48 + n) else Char.ofNat (87 + n)

/-- Hex encoding of a byte list: high nibble then low nibble of each byte,
as Go's `hex.EncodeToString`. -/
def hexEncode (bs : List Nat) : String :=
  String.mk (bs.foldr (fun b acc => hexChar (b % 256 / 16) :: hexChar (b % 16) :: acc) [])

/-- UTF-8 bytes of a character. -/
def utf8Bytes (c : Char) : List Nat :=
  let n := c.toNat
  if n < 128 then [n]
  else if n < 2048 then [192 + n / 64, 128 + n % 64]
  else if n < 65536 then [224 + n / 4096, 128 + n / 64 % 64, 128 + n % 64]
  else [240 + n / 262144, 128 + n / 4096 % 64, 128 + n / 64 % 64, 128 + n % 64]

/-- UTF-8 bytes of a string (Go strings are UTF-8 byte sequences). -/
def strBytes (s : String) : List Nat :=
  (s.data.map utf8Bytes).flatten

/-- `generateRandomString` (db.go): hex-encode `length/2` bytes from
`crypto/rand` and keep the first `length` characters; if the RNG read
fails, fall back to hex-encoding the decimal string of the current
nanosecond clock.  The RNG outcome is passed in explicitly: `rngOk` says
whether `rand.Read` succeeded, `entropy` are the bytes it delivered, and
`nanos` is the fallback clock value. -/
def generateRandomString (rngOk : Bool) (entropy : List Nat) (nanos : Nat)
    (length : Nat) : String :=
  if rngOk then
    strTake (hexEncode (entropy.take (length / 2))) length
  else
    strTake (hexEncode (strBytes (toString nanos))) length

/-- `processStickyProxyStr` (db.go): split the credential on `:`; when it
has at least three segments and the third (the username) contains
`${random}` or `{random}`, draw one random string of length 8 and replace
both spellings with it, rejoining with `:`; otherwise return the
credential unchanged. -/
def processStickyProxyStr (rngOk : Bool) (entropy : List Nat) (nanos : Nat)
    (proxyStr : String) : String :=
  let parts := splitChar ':' proxyStr
  if 3 ≤ parts.length then
    let username := parts.getD 2 ""
    if containsSub username "${random}" || containsSub username "{random}" then
      let randomStr := generateRandomString rngOk entropy nanos 8
      let username2 := replaceStr (replaceStr username "${random}" randomStr) "{random}" randomStr
      String.intercalate ":" (parts.set 2 username2)
    else proxyStr
  else proxyStr

/-! MD5 (RFC 1321), used by the fingerprint computation
`fmt.Sprintf("%x", md5.Sum([]byte(data)))` in `LoadProxiesFromList`. -/

/-- Per-round left-rotation amounts of MD5. -/
def md5S : List Nat :=
  [7, 12, 17, 22, 7, 12, 17, 22, 7, 12, 17, 22, 7, 12, 17, 22,
   5, 9, 14, 20, 5, 9, 14, 20, 5, 9, 14, 20, 5, 9, 14, 20,
   4, 11, 16, 23, 4, 11, 16, 23, 4, 11, 16, 23, 4, 11, 16, 23,
   6, 10, 15, 21, 6, 10, 15, 21, 6, 10, 15, 21, 6, 10, 15, 21]

/-- Per-round additive constants of MD5. -/
def md5K : List Nat :=
  [0xd76aa478, 0xe8c7b756, 0x242070db, 0xc1bdceee,
   0xf57c0faf, 0x4787c62a, 0xa8304613, 0xfd469501,
   0x698098d8, 0x8b44f7af, 0xffff5bb1, 0x895cd7be,
   0x6b901122, 0xfd987193, 0xa679438e, 0x49b40821,
   0xf61e2562, 0xc040b340, 0x265e5a51, 0xe9b6c7aa,
   0xd62f105d, 0x02441453, 0xd8a1e681, 0xe7d3fbc8,
   0x21e1cde6, 0xc33707d6, 0xf4d50d87, 0x455a14ed,
   0xa9e3e905, 0xfcefa3f8, 0x676f02d9, 0x8d2a4c8a,
   0xfffa3942, 0x8771f681, 0x6d9d6122, 0xfde5380c,
   0xa4beea44, 0x4bdecfa9, 0xf6bb4b60, 0xbebfbc70,
   0x289b7ec6, 0xeaa127fa, 0xd4ef3085, 0x04881d05,
   0xd9d4d039, 0xe6db99e5, 0x1fa27cf8, 0xc4ac5665,
   0xf4292244, 0x432aff97, 0xab9423a7, 0xfc93a039,
   0x655b59c3, 0x8f0ccc92, 0xffeff47d, 0x85845dd1,
   0x6fa87e4f, 0xfe2ce6e0, 0xa3014314, 0x4e0811a1,
   0xf7537e82, 0xbd3af235, 0x2ad7d2bb, 0xeb86d391]

/-- Fuelled binary bitwise combinator on naturals (structurally recursive,
32 bits of fuel suffice for MD5 words). -/
def natBitop (f : Nat → Nat → Nat) : Nat → Nat → Nat → Nat
  | 0, _, _ => 0
  | fuel + 1, a, b => f (a % 2) (b % 2) + 2 * natBitop f fuel (a / 2) (b / 2)

/-- Bitwise AND on 32-bit words. -/
def land32 (a b : Nat) : Nat := natBitop (fun x y => x * y) 32 a b

/-- Bitwise OR on 32-bit words. -/
def lor32 (a b : Nat) : Nat := natBitop (fun x y => x + y - x * y) 32 a b

/-- Bitwise XOR on 32-bit words. -/
def xor32 (a b : Nat) : Nat := natBitop (fun x y => (x + y) % 2) 32 a b

/-- Bitwise complement of a 32-bit word. -/
def not32 (a : Nat) : Nat := 4294967295 - a % 4294967296

/-- Left rotation of a 32-bit word. -/
def rotl32 (x s : Nat) : Nat :=
  (x % 4294967296 * 2 ^ s + x % 4294967296 / 2 ^ (32 - s)) % 4294967296

/-- Little-endian bytes of a 32-bit word. -/
def leBytes4 (n : Nat) : List Nat :=
  [n % 256, n / 256 % 256, n / 65536 % 256, n / 16777216 % 256]

/-- Little-endian bytes of a 64-bit word. -/
def leBytes8 (n : Nat) : List Nat :=
  leBytes4 (n % 4294967296) ++ leBytes4 (n / 4294967296 % 4294967296)

/-- One MD5 round on the running state, `m` giving the 16 message words of
the current chunk. -/
def md5Round (m : Nat → Nat) (st : Nat × Nat × Nat × Nat) (i : Nat) :
    Nat × Nat × Nat × Nat :=
  let a := st.1
  let b := st.2.1
  let c := st.2.2.1
  let d := st.2.2.2
  let f :=
    if i < 16 then lor32 (land32 b c) (land32 (not32 b) d)
    else if i < 32 then lor32 (land32 d b) (land32 (not32 d) c)
    else if i < 48 then xor32 (xor32 b c) d
    else xor32 c (lor32 b (not32 d))
  let g :=
    if i < 16 then i
    else if i < 32 then (5 * i + 1) % 16
    else if i < 48 then (3 * i + 5) % 16
    else 7 * i % 16
  let f2 := (f + a + md5K.getD i 0 + m g) % 4294967296
  (d, (b + rotl32 f2 (md5S.getD i 0)) % 4294967296, b, c)

/-- Process one 64-byte chunk of the padded message. -/
def md5ProcessChunk (st : Nat × Nat × Nat × Nat) (chunk : List Nat) :
    Nat × Nat × Nat × Nat :=
  let m := fun g =>
    chunk.getD (4 * g) 0 + 256 * chunk.getD (4 * g + 1) 0 +
      65536 * chunk.getD (4 * g + 2) 0 + 16777216 * chunk.getD (4 * g + 3) 0
  let r := (List.range 64).foldl (md5Round m) st
  ((st.1 + r.1) % 4294967296, (st.2.1 + r.2.1) % 4294967296,
    (st.2.2.1 + r.2.2.1) % 4294967296, (st.2.2.2 + r.2.2.2) % 4294967296)

/-- Split a byte list into 64-byte chunks (fuelled to stay structurally
recursive; fuel at least the list length is enough). -/
def md5ChunksF : Nat → List Nat → List (List Nat)
  | 0, _ => []
  | _, [] => []
  | fuel + 1, b :: bs => ((b :: bs).take 64) :: md5ChunksF fuel ((b :: bs).drop 64)

/-- Lowercase hex MD5 digest of a string, i.e.
`fmt.Sprintf("%x", md5.Sum([]byte(s)))`. -/
def md5Hex (s : String) : String :=
  let msg := strBytes s
  let padded :=
    msg ++ [128] ++ List.replicate ((120 - (msg.length + 1) % 64) % 64) 0 ++
      leBytes8 (msg.length * 8 % 18446744073709551616)
  let r := (md5ChunksF padded.length padded).foldl md5ProcessChunk
    (0x67452301, 0xefcdab89, 0x98badcfe, 0x10325476)
  hexEncode (leBytes4 r.1 ++ leBytes4 r.2.1 ++ leBytes4 r.2.2.1 ++ leBytes4 r.2.2.2)

/-! Vendor calls and HTTP calls, embedded as oracle values describing the
outcome the network delivered. -/

/-- TMProxy API response body (`service.TMProxyResponse`): `code`,
`message`, and the data fields consumed by db.go. -/
structure TMResp where
  code : Int
  message : String
  timeout : Int
  nextRequest : Int
  https : String
  username : String
  password : String
  deriving DecidableEq, Repr

/-- KiotProxy API response body (`service.KiotProxyResponse`): `success`,
`code`, `message`, `error`, and the data fields consumed by db.go
(`http`, `nextRequestAt` in epoch milliseconds). -/
structure KiotResp where
  success : Bool
  code : Int
  message : String
  errStr : String
  http : String
  nextRequestAt : Int
  deriving DecidableEq, Repr

/-- Outcome of a vendor call as Go sees `(resp, err)`: transport error,
`nil` response, or a parsed response. -/
inductive CallRes (α : Type)
  | errC (msg : String)
  | nilResp
  | resp (r : α)
  deriving DecidableEq, Repr

/-- Outcome of a vendor call at a site that does not test `resp == nil`
(the service layer returns a non-nil response whenever `err == nil`). -/
inductive CallRes2 (α : Type)
  | errC (msg : String)
  | resp (r : α)
  deriving DecidableEq, Repr

/-- Outcome of an HTTP GET as seen by `callChangeURL`: transport error or
a response with a status code. -/
inductive HttpRes
  | netError (msg : String)
  | status (code : Int)
  deriving DecidableEq, Repr

/-- `callChangeURL` (check.go): reject an empty URL, propagate transport
errors, and accept exactly the statuses `http.StatusOK` (200) and
`http.StatusNoContent` (204). -/
def callChangeURL (changeURL : String) (r : HttpRes) : Except String Unit :=
  if changeURL == "" then Except.error "changeURL is empty"
  else
    match r with
    | HttpRes.netError m => Except.error ("failed to call change_url: " ++ m)
    | HttpRes.status c =>
        if ¬(c = 200) ∧ ¬(c = 204) then
          Except.error ("change_url returned status " ++ toString c)
        else Except.ok ()

/-- Environment of one `GetAvailableProxy` call: the outcomes of the
external calls it may perform and the RNG state `processStickyProxyStr`
may consume. -/
structure AcquireEnv where
  tmNew : CallRes2 TMResp
  kiotNew : CallRes2 KiotResp
  mobile : HttpRes
  rngOk : Bool
  entropy : List Nat
  nanos : Nat
  deriving Repr

/-- The mutation-and-return part of `GetAvailableProxy` (db.go), applied to
the row `p` the eligibility query selected, at instant `now`.  Returns the
stored row as the call leaves it, paired with the call's `(id, proxyStr)`
result or error.  Mirrors the source exactly: non-unique rows are returned
without being touched; otherwise the row is first marked running, then the
per-kind rotation policy runs. -/
def acquireSelected (env : AcquireEnv) (now : Int) (p : Proxy) :
    Proxy × Except String (Int × String) :=
  if !p.unique then
    if p.type = ProxyType.sticky then
      (p, Except.ok (p.id, processStickyProxyStr env.rngOk env.entropy env.nanos p.proxyStr))
    else
      (p, Except.ok (p.id, p.proxyStr))
  else
    let p1 : Proxy := { p with running := true, updatedAt := now }
    let canChangeIP : Bool := p1.minTime == 0 || decide (now - p1.lastChanged ≥ p1.minTime)
    if p1.type = ProxyType.sticky ∧ p1.unique = true then
      if canChangeIP then
        let p2 : Proxy := { p1 with lastChanged := now, used := 1, error := "", updatedAt := now }
        (p2, Except.ok (p2.id, processStickyProxyStr env.rngOk env.entropy env.nanos p2.proxyStr))
      else
        let p2 : Proxy := { p1 with used := p1.used + 1, updatedAt := now }
        (p2, Except.ok (p2.id, processStickyProxyStr env.rngOk env.entropy env.nanos p2.proxyStr))
    else if p1.type = ProxyType.tmproxy ∧ canChangeIP = true ∧ ¬(p1.apiKey = "") then
      match env.tmNew with
      | CallRes2.errC e =>
          let errMsg := "GetNewProxy failed: " ++ e
          ({ p1 with error := errMsg, updatedAt := now }, Except.error errMsg)
      | CallRes2.resp r =>
          if ¬(r.code = 0) then
            let errMsg := "tmproxy api returned code: " ++ toString r.code ++ ", message: " ++ r.message
            ({ p1 with error := errMsg, updatedAt := now }, Except.error errMsg)
          else
            let newProxyStr := r.https ++ ":" ++ r.username ++ ":" ++ r.password
            let p2 : Proxy := { p1 with proxyStr := newProxyStr, lastChanged := now,
                                        used := 1, error := "", updatedAt := now }
            (p2, Except.ok (p2.id, newProxyStr))
    else if p1.type = ProxyType.mobilehop ∧ ¬(p1.changeUrl = "") then
      match callChangeURL p1.changeUrl env.mobile with
      | Except.error e =>
          let errMsg := "callChangeURL failed: " ++ e
          ({ p1 with running := false, updatedAt := now }, Except.error errMsg)
      | Except.ok _ =>
          let p2 : Proxy := { p1 with lastChanged := now, used := 1, error := "", updatedAt := now }
          (p2, Except.ok (p2.id, p2.proxyStr))
    else if p1.type = ProxyType.kiotproxy ∧ canChangeIP = true ∧ ¬(p1.apiKey = "") then
      match env.kiotNew with
      | CallRes2.errC e =>
          let errMsg := "GetNewProxy failed: " ++ e
          ({ p1 with error := errMsg, updatedAt := now }, Except.error errMsg)
      | CallRes2.resp r =>
          if ¬(r.success = true) then
            let errMsg := "kiotproxy api returned code: " ++ toString r.code ++ ", message: " ++
              r.message ++ ", error: " ++ r.errStr
            ({ p1 with error := errMsg, updatedAt := now }, Except.error errMsg)
          else
            let newProxyStr := r.http ++ "::"
            let p2 : Proxy := { p1 with proxyStr := newProxyStr, lastChanged := now,
                                        used := 1, error := "", updatedAt := now }
            (p2, Except.ok (p2.id, newProxyStr))
    else
      let p2 : Proxy := { p1 with used := p1.used + 1, updatedAt := now }
      (p2, Except.ok (p.id, p.proxyStr))

/-- `ReleaseProxy` (db.go): issue `UPDATE proxies SET running=false,
updated_at=? WHERE id=?` ignoring its error, mirror the change in the
cache unconditionally, and return `nil`.  `dbOk` says whether the SQL
update took effect; the result is the (row, cache, returned error)
triple. -/
def releaseProxy (dbOk : Bool) (now : Int) (row cache : Proxy) :
    Proxy × Proxy × Except String Unit :=
  ((if dbOk then { row with running := false, updatedAt := now } else row),
   { cache with running := false, updatedAt := now },
   Except.ok ())

/-- `ClearProxyError` (db.go): set `error=''` and bump `updated_at`. -/
def clearProxyError (now : Int) (p : Proxy) : Proxy :=
  { p with error := "", updatedAt := now }

/-- The proxies table: rows plus the next rowid SQLite would assign. -/
structure Catalog where
  rows : List Proxy
  nextId : Int
  deriving DecidableEq, Repr

/-- Sort key of the selection query:
`ORDER BY CASE WHEN is_unique = 0 THEN 0 ELSE 1 END, used ASC, id ASC`. -/
def selKeyLt (p q : Proxy) : Bool :=
  let a : Int := if p.unique then 1 else 0
  let b : Int := if q.unique then 1 else 0
  decide (a < b) ||
    (a == b && (decide (p.used < q.used) ||
      (p.used == q.used && decide (p.id < q.id))))

/-- Keep the candidate that comes first in the query's order. -/
def pickBetter (acc : Option Proxy) (p : Proxy) : Option Proxy :=
  match acc with
  | none => some p
  | some q => if selKeyLt p q then some p else some q

/-- The `SELECT ... LIMIT 1` of `GetAvailableProxy`: among eligible rows,
the least one in the query's order. -/
def selectCandidate (maxUsed now : Int) (c : Catalog) : Option Proxy :=
  (c.rows.filter (fun p => eligible maxUsed now p)).foldl pickBetter none

/-! Loading: `LoadProxiesFromList` and `upsertProxy` (db.go). -/

/-- Decimal digit value of a character, if any. -/
def decDigit (c : Char) : Option Nat :=
  if 48 ≤ c.toNat ∧ c.toNat ≤ 57 then some (c.toNat - 48) else none

/-- Accumulate a decimal numeral; `none` on any non-digit. -/
def natOfDigitsAux : List Char → Nat → Option Nat
  | [], acc => some acc
  | c :: cs, acc =>
      match decDigit c with
      | some d => natOfDigitsAux cs (acc * 10 + d)
      | none => none

/-- Go `strconv.Atoi` as the sources use it (`val, _ := strconv.Atoi(s)`):
the parsed integer, or `0` when parsing fails. -/
def atoi (s : String) : Int :=
  match s.data with
  | [] => 0
  | c :: cs =>
      if c = '-' then
        match cs with
        | [] => 0
        | _ =>
            match natOfDigitsAux cs 0 with
            | some n => -(n : Int)
            | none => 0
      else if c = '+' then
        match cs with
        | [] => 0
        | _ =>
            match natOfDigitsAux cs 0 with
            | some n => (n : Int)
            | none => 0
      else
        match natOfDigitsAux (c :: cs) 0 with
        | some n => (n : Int)
        | none => 0

/-- Modelled from the spec: the `validateProxyType` of the revision that
matches the authoritative `db.go` is not under `src/` (the `goproxy.go`
revisions present predate the `sticky`/`kiotproxy` kinds).  Spec section 6
gives the accepted kind tags: `static`, `mobilehop`, `tmproxy`,
`kiotproxy`, `ipv4xoay`, `sticky`; an unknown kind is a parse error. -/
def parseProxyType (s : String) : Option ProxyType :=
  if s == "tmproxy" then some ProxyType.tmproxy
  else if s == "static" then some ProxyType.static
  else if s == "mobilehop" then some ProxyType.mobilehop
  else if s == "sticky" then some ProxyType.sticky
  else if s == "kiotproxy" then some ProxyType.kiotproxy
  else if s == "ipv4xoay" then some ProxyType.ipv4xoay
  else none

/-- Result of parsing one pipe-delimited proxy line: kind, the split
fields, and the descriptor values derived by `LoadProxiesFromList` before
any vendor call. -/
structure ParsedLine where
  pType : ProxyType
  parts : List String
  proxyStr : String
  apiKey : String
  changeUrl : String
  minTime : Int
  unique : Bool
  deriving DecidableEq, Repr

/-- The `minTime`/`changeUrl`/`unique` extraction of `LoadProxiesFromList`
from `parts[2..]`: mobilehop takes `parts[2]` as `change_url` (no
min_time); sticky may carry a `true`/`false` unique flag in `parts[2]`
followed by min_time/change_url in either order; every other kind reads
min_time/change_url in either order from `parts[2]`/`parts[3]`. -/
def parseTail (pType : ProxyType) (unique0 : Bool) (parts : List String) :
    Bool × Int × String :=
  let p2 := parts.getD 2 ""
  if 2 < parts.length ∧ ¬(p2 = "") then
    if pType = ProxyType.mobilehop then
      (unique0, 0, p2)
    else if pType = ProxyType.sticky ∧ (p2 = "true" ∨ p2 = "false") then
      let u := p2 == "true"
      let p3 := parts.getD 3 ""
      if 3 < parts.length ∧ ¬(p3 = "") then
        if 0 < atoi p3 then
          (u, atoi p3, if 4 < parts.length then parts.getD 4 "" else "")
        else
          (u, if 4 < parts.length ∧ 0 < atoi (parts.getD 4 "") then atoi (parts.getD 4 "") else 0, p3)
      else
        (u, 0, "")
    else
      if 0 < atoi p2 then
        (unique0, atoi p2, if 3 < parts.length then parts.getD 3 "" else "")
      else
        (unique0, if 3 < parts.length ∧ 0 < atoi (parts.getD 3 "") then atoi (parts.getD 3 "") else 0, p2)
  else
    (unique0, 0, "")

/-- Line parser of `LoadProxiesFromList`: trim, split on `|`, require at
least two fields, validate the kind, classify `parts[1]` as credential
(contains `:`) or api key, and read the tail fields.  `unique` defaults to
true exactly for `tmproxy`/`mobilehop`/`static`/`kiotproxy`. -/
def parseLine (s : String) : Except String ParsedLine :=
  let parts := splitChar '|' (trimStr s)
  if parts.length < 2 then Except.error ("invalid format: " ++ s)
  else
    match parseProxyType (parts.getD 0 "") with
    | none => Except.error ("unknown proxy type: " ++ parts.getD 0 "")
    | some pType =>
        let unique0 : Bool :=
          pType = ProxyType.tmproxy ∨ pType = ProxyType.mobilehop ∨
            pType = ProxyType.static ∨ pType = ProxyType.kiotproxy
        let p1 := parts.getD 1 ""
        let proxyStr := if containsSub p1 ":" then p1 else ""
        let apiKey := if containsSub p1 ":" then "" else p1
        let t := parseTail pType unique0 parts
        Except.ok { pType := pType, parts := parts, proxyStr := proxyStr, apiKey := apiKey,
                    changeUrl := t.2.2, minTime := t.2.1, unique := t.1 }

/-- Environment of one `LoadProxiesFromList` line: outcomes of the vendor
calls it may perform. -/
structure LoadEnv where
  tmCurrent : CallRes TMResp
  tmNew : CallRes TMResp
  kiotCurrent : CallRes KiotResp
  kiotNew : CallRes KiotResp
  deriving Repr

/-- TMProxy seeding during load (db.go): try `GetCurrentProxy`; on error,
nil response, non-zero code, zero timeout or zero `NextRequest`, fall back
to `GetNewProxy`; a valid current credential back-dates `last_changed` by
`minTime - NextRequest` clamped at zero.  Returns the credential,
`last_changed` and the recorded error. -/
def tmLoadFetch (env : LoadEnv) (now minTime : Int) (proxyStr0 : String) :
    String × Int × String :=
  let needNew : Bool :=
    match env.tmCurrent with
    | CallRes.errC _ => true
    | CallRes.nilResp => true
    | CallRes.resp r => ¬(r.code = 0) ∨ r.timeout = 0 ∨ r.nextRequest = 0
  if needNew then
    match env.tmNew with
    | CallRes.errC e => (proxyStr0, now, "GetNewProxy failed: " ++ e)
    | CallRes.nilResp => (proxyStr0, now, "GetNewProxy returned nil response")
    | CallRes.resp nr =>
        if ¬(nr.code = 0) then
          (proxyStr0, now, "GetNewProxy failed - code: " ++ toString nr.code ++ ", message: " ++ nr.message)
        else
          (nr.https ++ ":" ++ nr.username ++ ":" ++ nr.password, now, "")
  else
    match env.tmCurrent with
    | CallRes.resp r =>
        let w := minTime - r.nextRequest
        let w := if w < 0 then 0 else w
        (r.https ++ ":" ++ r.username ++ ":" ++ r.password, now - w, "")
    | _ => (proxyStr0, now, "")

/-- KiotProxy seeding during load (db.go): try `GetCurrentProxy`; on
error, nil response, failure, or an already-expired `NextRequestAt`
(epoch ms), fall back to `GetNewProxy`; a valid current credential
back-dates `last_changed` by `minTime - remaining` clamped at zero. -/
def kiotLoadFetch (env : LoadEnv) (now minTime : Int) (proxyStr0 : String) :
    String × Int × String :=
  let needNew : Bool :=
    match env.kiotCurrent with
    | CallRes.errC _ => true
    | CallRes.nilResp => true
    | CallRes.resp r => ¬(r.success = true) ∨ r.nextRequestAt / 1000 ≤ now
  if needNew then
    match env.kiotNew with
    | CallRes.errC e => (proxyStr0, now, "GetNewProxy failed: " ++ e)
    | CallRes.nilResp => (proxyStr0, now, "GetNewProxy returned nil response")
    | CallRes.resp nr =>
        if ¬(nr.success = true) then
          (proxyStr0, now,
            "GetNewProxy failed - code: " ++ toString nr.code ++ ", message: " ++ nr.message ++
              ", error: " ++ nr.errStr)
        else
          (nr.http ++ "::", now, "")
  else
    match env.kiotCurrent with
    | CallRes.resp r =>
        let remaining := r.nextRequestAt / 1000 - now
        let w := minTime - remaining
        let w := if w < 0 then 0 else w
        (r.http ++ "::", now - w, "")
    | _ => (proxyStr0, now, "")

/-- KiotProxy region re-extraction during load (db.go): `parts[3]` (or
`parts[4]`) is stored into `change_url` when it is not a URL and not a
positive number. -/
def kiotRegion (parts : List String) (changeUrl : String) : String :=
  let p3 := parts.getD 3 ""
  if 3 < parts.length ∧ ¬(p3 = "") ∧ ¬(containsSub p3 "://" = true) then
    if atoi p3 = 0 then p3
    else if 4 < parts.length then parts.getD 4 ""
    else changeUrl
  else changeUrl

/-- Fingerprint computation of `LoadProxiesFromList` (db.go): MD5 of the
api key for `tmproxy`/`kiotproxy`; MD5 of the raw `parts[1]` template for
`sticky`; MD5 of the credential string for every other kind. -/
def uniqueKeyFor (pType : ProxyType) (proxyStr apiKey origCred : String) : String :=
  if pType = ProxyType.tmproxy ∨ pType = ProxyType.kiotproxy then md5Hex apiKey
  else if pType = ProxyType.sticky then md5Hex origCred
  else md5Hex proxyStr

/-- Arguments of one `upsertProxy` call. -/
structure UpsertArgs where
  pType : ProxyType
  proxyStr : String
  apiKey : String
  changeUrl : String
  minTime : Int
  uniqueKey : String
  unique : Bool
  lastChanged : Int
  proxyError : String
  deriving DecidableEq, Repr

/-- `upsertProxy` (db.go): INSERT a fresh row (counters seeded to
`running=false`, `used=0`); on a UNIQUE violation of `unique_key`, UPDATE
the existing row's `proxy_str`, `min_time`, `change_url`, `is_unique`,
`last_changed`, `error`, `updated_at` and return its id. -/
def upsertProxy (c : Catalog) (a : UpsertArgs) (now : Int) : Catalog × Int :=
  match c.rows.find? (fun r => r.uniqueKey == a.uniqueKey) with
  | none =>
      let row : Proxy :=
        { id := c.nextId, type := a.pType, proxyStr := a.proxyStr, apiKey := a.apiKey,
          uniqueKey := a.uniqueKey, minTime := a.minTime, changeUrl := a.changeUrl,
          running := false, used := 0, unique := a.unique, lastChanged := a.lastChanged,
          lastIP := "", error := a.proxyError, updatedAt := now }
      ({ rows := c.rows ++ [row], nextId := c.nextId + 1 }, c.nextId)
  | some r =>
      ({ c with rows := c.rows.map (fun q =>
          if q.uniqueKey == a.uniqueKey then
            { q with proxyStr := a.proxyStr, minTime := a.minTime, changeUrl := a.changeUrl,
                     unique := a.unique, lastChanged := a.lastChanged, error := a.proxyError,
                     updatedAt := now }
          else q) },
        r.id)

/-- One iteration of the `LoadProxiesFromList` loop (db.go): parse the
line, run the per-kind vendor seeding, default `last_changed` to `now`,
compute the fingerprint and upsert. -/
def loadLine (env : LoadEnv) (now : Int) (c : Catalog) (s : String) :
    Except String (Catalog × Int) :=
  match parseLine s with
  | Except.error e => Except.error e
  | Except.ok pl =>
      let fetched :=
        if pl.pType = ProxyType.tmproxy ∧ ¬(pl.apiKey = "") then
          tmLoadFetch env now pl.minTime pl.proxyStr
        else if pl.pType = ProxyType.kiotproxy ∧ ¬(pl.apiKey = "") then
          kiotLoadFetch env now pl.minTime pl.proxyStr
        else
          (pl.proxyStr, now, "")
      let changeUrl :=
        if pl.pType = ProxyType.kiotproxy ∧ ¬(pl.apiKey = "") then
          kiotRegion pl.parts pl.changeUrl
        else pl.changeUrl
      let uniqueKey := uniqueKeyFor pl.pType fetched.1 pl.apiKey (pl.parts.getD 1 "")
      Except.ok (upsertProxy c
        { pType := pl.pType, proxyStr := fetched.1, apiKey := pl.apiKey,
          changeUrl := changeUrl, minTime := pl.minTime, uniqueKey := uniqueKey,
          unique := pl.unique, lastChanged := fetched.2.1, proxyError := fetched.2.2 }
        now)

/-- Row of a catalog with the given id, if any. -/
def findRow (c : Catalog) (id : Int) : Option Proxy :=
  c.rows.find? (fun r => r.id == id)

/-! Descriptor view of the catalog, used to state load idempotence: the
fields `configure(L); configure(L)` must leave identical are the
fingerprint and the `proxy_str`/`min_time`/`change_url` descriptor. -/

/-- Descriptor of a row: fingerprint, credential, min_time, change_url. -/
def rowDesc (r : Proxy) : String × String × Int × String :=
  (r.uniqueKey, r.proxyStr, r.minTime, r.changeUrl)

/-- Descriptor carried by one upsert argument. -/
def argDesc (a : UpsertArgs) : String × String × Int × String :=
  (a.uniqueKey, a.proxyStr, a.minTime, a.changeUrl)

/-- Descriptors of a catalog, in row order. -/
def descOf (c : Catalog) : List (String × String × Int × String) :=
  c.rows.map rowDesc

/-- Effect of one upsert on the descriptor list. -/
def gStep (ds : List (String × String × Int × String)) (a : UpsertArgs) :
    List (String × String × Int × String) :=
  if ds.any (fun d => d.1 == a.uniqueKey) then
    ds.map (fun d => if d.1 == a.uniqueKey then argDesc a else d)
  else ds ++ [argDesc a]

/-- `LoadProxiesFromList` upserting a whole list of parsed arguments. -/
def upsertAll (c : Catalog) (L : List UpsertArgs) (now : Int) : Catalog :=
  L.foldl (fun c a => (upsertProxy c a now).1) c

/-- One upsert acts on descriptors exactly as `gStep`. -/
theorem descOf_upsert (c : Catalog) (a : UpsertArgs) (now : Int) :
    descOf (upsertProxy c a now).1 = gStep (descOf c) a := by
  rcases hfind : c.rows.find? (fun r => r.uniqueKey == a.uniqueKey) with _ | r
  · have hany : ((c.rows.map rowDesc).any (fun d => d.1 == a.uniqueKey)) = false := by
      rw [List.any_eq_false]
      intro d hd
      rcases List.mem_map.mp hd with ⟨q, hq, hdq⟩
      have hnone := List.find?_eq_none.mp hfind q hq
      simpa [← hdq, rowDesc] using hnone
    simp only [upsertProxy, hfind, descOf, gStep, hany, Bool.false_eq_true, if_false,
      List.map_append]
    simp [rowDesc, argDesc]
  · have hmem : r ∈ c.rows := List.mem_of_find?_eq_some hfind
    have hkey : (r.uniqueKey == a.uniqueKey) = true := by
      simpa using List.find?_some hfind
    have hany : ((c.rows.map rowDesc).any (fun d => d.1 == a.uniqueKey)) = true := by
      rw [List.any_eq_true]
      exact ⟨rowDesc r, List.mem_map_of_mem rowDesc hmem, hkey⟩
    simp only [upsertProxy, hfind, descOf, gStep, hany, if_true, List.map_map]
    apply List.map_congr_left
    intro q _
    by_cases hq : (q.uniqueKey == a.uniqueKey) = true
    · simp [Function.comp, rowDesc, argDesc, hq, beq_iff_eq.mp hq]
    · simp [Function.comp, rowDesc, argDesc, hq]

/-- Upserting a list acts on descriptors as folding `gStep`. -/
theorem descOf_upsertAll (L : List UpsertArgs) :
    ∀ (c : Catalog) (now : Int), descOf (upsertAll c L now) = L.foldl gStep (descOf c) := by
  induction L with
  | nil => intro c now; rfl
  | cons a t ih =>
      intro c now
      show descOf (upsertAll (upsertProxy c a now).1 t now) = t.foldl gStep (gStep (descOf c) a)
      rw [ih, descOf_upsert]

/-- The key of `a` occurs in `ds` and everywhere with value `argDesc a`. -/
def keyHolds (ds : List (String × String × Int × String)) (a : UpsertArgs) : Prop :=
  (∃ d ∈ ds, d.1 = a.uniqueKey) ∧ ∀ d ∈ ds, d.1 = a.uniqueKey → d = argDesc a

/-- After a step with key `a`, that key is settled. -/
theorem gStep_establishes (ds : List (String × String × Int × String)) (a : UpsertArgs) :
    keyHolds (gStep ds a) a := by
  rw [gStep]
  by_cases hany : ds.any (fun d => d.1 == a.uniqueKey) = true
  · rw [if_pos hany]
    rcases List.any_eq_true.mp hany with ⟨d0, hd0, hk0⟩
    constructor
    · refine ⟨argDesc a, ?_, rfl⟩
      have hmm : (if d0.1 == a.uniqueKey then argDesc a else d0) ∈ ds.map (fun d =>
          if d.1 == a.uniqueKey then argDesc a else d) :=
        List.mem_map_of_mem _ hd0
      rwa [if_pos hk0] at hmm
    · intro d hd hk
      rcases List.mem_map.mp hd with ⟨q, hq, hdq⟩
      by_cases hqk : (q.1 == a.uniqueKey) = true
      · rw [← hdq, if_pos hqk]
      · exfalso
        rw [← hdq, if_neg hqk] at hk
        exact hqk (beq_iff_eq.mpr hk)
  · rw [if_neg hany]
    constructor
    · exact ⟨argDesc a, List.mem_append_right ds (List.mem_singleton.mpr rfl), rfl⟩
    · intro d hd hk
      rcases List.mem_append.mp hd with hd | hd
      · exfalso
        have := List.any_eq_true.not.mp hany
        exact this ⟨d, hd, beq_iff_eq.mpr hk⟩
      · exact List.mem_singleton.mp hd

/-- A step with a different key leaves a settled key settled. -/
theorem gStep_preserves (ds : List (String × String × Int × String)) (a b : UpsertArgs)
    (hne : ¬(b.uniqueKey = a.uniqueKey)) (h : keyHolds ds a) : keyHolds (gStep ds b) a := by
  rcases h with ⟨⟨d0, hd0, hk0⟩, hall⟩
  rw [gStep]
  by_cases hany : ds.any (fun d => d.1 == b.uniqueKey) = true
  · rw [if_pos hany]
    constructor
    · refine ⟨d0, ?_, hk0⟩
      have hmm : (if d0.1 == b.uniqueKey then argDesc b else d0) ∈ ds.map (fun d =>
          if d.1 == b.uniqueKey then argDesc b else d) :=
        List.mem_map_of_mem _ hd0
      have hd0ne : (d0.1 == b.uniqueKey) = false :=
        beq_eq_false_iff_ne.mpr (by rw [hk0]; intro he; exact hne he.symm)
      rwa [if_neg (by simp [hd0ne])] at hmm
    · intro d hd hk
      rcases List.mem_map.mp hd with ⟨q, hq, hdq⟩
      by_cases hqk : (q.1 == b.uniqueKey) = true
      · exfalso
        rw [← hdq, if_pos hqk] at hk
        exact hne (hk ▸ rfl)
      · rw [← hdq, if_neg hqk] at hk ⊢
        exact hall q hq hk
  · rw [if_neg hany]
    constructor
    · exact ⟨d0, List.mem_append_left _ hd0, hk0⟩
    · intro d hd hk
      rcases List.mem_append.mp hd with hd | hd
      · exact hall d hd hk
      · exfalso
        rw [List.mem_singleton.mp hd] at hk
        exact hne (hk ▸ rfl)

/-- Folding steps whose keys all differ preserves a settled key. -/
theorem foldl_gStep_preserves (a : UpsertArgs) :
    ∀ (t : List UpsertArgs) (ds : List (String × String × Int × String)),
      (∀ b ∈ t, ¬(b.uniqueKey = a.uniqueKey)) → keyHolds ds a →
        keyHolds (t.foldl gStep ds) a
  | [], _, _, h => h
  | b :: t, ds, hne, h =>
      foldl_gStep_preserves a t (gStep ds b)
        (fun x hx => hne x (List.mem_cons_of_mem b hx))
        (gStep_preserves ds a b (hne b (List.mem_cons_self b t)) h)

/-- Last element of the argument list carrying the given fingerprint. -/
def lastA : List UpsertArgs → String → Option UpsertArgs
  | [], _ => none
  | a :: t, k =>
      match lastA t k with
      | some b => some b
      | none => if a.uniqueKey == k then some a else none

/-- A key never written by the list has no last writer. -/
theorem lastA_none : ∀ (t : List UpsertArgs) (k : String), lastA t k = none →
    ∀ x ∈ t, ¬(x.uniqueKey = k)
  | [], _, _, x, hx => absurd hx (List.not_mem_nil x)
  | a :: t, k, h, x, hx => by
      rcases hlt : lastA t k with _ | b
      · have hif : (if a.uniqueKey == k then some a else none) = (none : Option UpsertArgs) := by
          simpa [lastA, hlt] using h
        have hane : ¬(a.uniqueKey = k) := by
          by_cases hbeq : (a.uniqueKey == k) = true
          · rw [if_pos hbeq] at hif
            cases hif
          · exact fun he => hbeq (beq_iff_eq.mpr he)
        rcases List.mem_cons.mp hx with hxa | hxt
        · exact hxa ▸ hane
        · exact lastA_none t k hlt x hxt
      · exfalso
        have : (some b : Option UpsertArgs) = none := by
          simpa [lastA, hlt] using h
        cases this

/-- Descriptor an entry ends up with after a pass: the last writer of its
key wins, an unwritten key keeps its value. -/
def lastWrite (L : List UpsertArgs) (d : String × String × Int × String) :
    String × String × Int × String :=
  match lastA L d.1 with
  | some b => argDesc b
  | none => d

/-- A step keeps every present key present. -/
theorem gStep_present_mono (ds : List (String × String × Int × String))
    (b : UpsertArgs) (k : String) (h : ds.any (fun d => d.1 == k) = true) :
    (gStep ds b).any (fun d => d.1 == k) = true := by
  rw [gStep]
  rcases List.any_eq_true.mp h with ⟨d0, hd0, hk0⟩
  by_cases hany : ds.any (fun d => d.1 == b.uniqueKey) = true
  · rw [if_pos hany, List.any_eq_true]
    refine ⟨(if d0.1 == b.uniqueKey then argDesc b else d0), List.mem_map_of_mem _ hd0, ?_⟩
    by_cases hd0b : (d0.1 == b.uniqueKey) = true
    · rw [if_pos hd0b]
      have h1 : d0.1 = b.uniqueKey := beq_iff_eq.mp hd0b
      simpa [argDesc, ← h1] using hk0
    · rw [if_neg hd0b]
      exact hk0
  · rw [if_neg hany, List.any_eq_true]
    exact ⟨d0, List.mem_append_left _ hd0, hk0⟩

/-- A step makes its own key present. -/
theorem gStep_present_self (ds : List (String × String × Int × String)) (a : UpsertArgs) :
    (gStep ds a).any (fun d => d.1 == a.uniqueKey) = true := by
  rcases (gStep_establishes ds a).1 with ⟨d0, hd0, hk0⟩
  rw [List.any_eq_true]
  exact ⟨d0, hd0, beq_iff_eq.mpr hk0⟩

/-- A whole pass keeps every present key present. -/
theorem foldl_gStep_present_mono :
    ∀ (t : List UpsertArgs) (ds : List (String × String × Int × String)) (k : String),
      ds.any (fun d => d.1 == k) = true →
        (t.foldl gStep ds).any (fun d => d.1 == k) = true
  | [], _, _, h => h
  | b :: t, ds, k, h =>
      foldl_gStep_present_mono t (gStep ds b) k (gStep_present_mono ds b k h)

/-- After a pass, every key of the list is present. -/
theorem foldl_gStep_present :
    ∀ (L : List UpsertArgs) (ds : List (String × String × Int × String)),
      ∀ a ∈ L, (L.foldl gStep ds).any (fun d => d.1 == a.uniqueKey) = true
  | [], _, a, ha => absurd ha (List.not_mem_nil a)
  | b :: t, ds, a, ha => by
      rcases List.mem_cons.mp ha with hab | hat
      · subst hab
        exact foldl_gStep_present_mono t (gStep ds a) a.uniqueKey (gStep_present_self ds a)
      · exact foldl_gStep_present t (gStep ds b) a hat

/-- When every key of the list is already present, a pass is the map that
hands each entry to its key's last writer. -/
theorem foldl_gStep_as_map :
    ∀ (L : List UpsertArgs) (ds : List (String × String × Int × String)),
      (∀ a ∈ L, ds.any (fun d => d.1 == a.uniqueKey) = true) →
        L.foldl gStep ds = ds.map (lastWrite L)
  | [], ds, _ => by
      simp only [List.foldl_nil]
      symm
      have hz : ∀ d ∈ ds, lastWrite [] d = d := by
        intro d _
        simp [lastWrite, lastA]
      simpa using List.map_congr_left hz
  | a :: t, ds, hpres => by
      have hpa : ds.any (fun d => d.1 == a.uniqueKey) = true :=
        hpres a (List.mem_cons_self a t)
      have hstep : gStep ds a = ds.map (fun d => if d.1 == a.uniqueKey then argDesc a else d) := by
        rw [gStep, if_pos hpa]
      have hkeep : ∀ d : String × String × Int × String,
          (if d.1 == a.uniqueKey then argDesc a else d).1 = d.1 := by
        intro d
        by_cases hd : (d.1 == a.uniqueKey) = true
        · rw [if_pos hd]
          simp [argDesc, beq_iff_eq.mp hd]
        · rw [if_neg hd]
      have hprest : ∀ b ∈ t, (ds.map (fun d => if d.1 == a.uniqueKey then argDesc a else d)).any
          (fun d => d.1 == b.uniqueKey) = true := by
        intro b hb
        rw [List.any_map]
        have hfe : ((fun d : String × String × Int × String => d.1 == b.uniqueKey) ∘
            (fun d => if d.1 == a.uniqueKey then argDesc a else d)) =
            (fun d : String × String × Int × String => d.1 == b.uniqueKey) := by
          funext d
          show ((if d.1 == a.uniqueKey then argDesc a else d).1 == b.uniqueKey) =
            (d.1 == b.uniqueKey)
          rw [hkeep d]
        rw [hfe]
        exact hpres b (List.mem_cons_of_mem a hb)
      show t.foldl gStep (gStep ds a) = ds.map (lastWrite (a :: t))
      rw [hstep, foldl_gStep_as_map t _ hprest, List.map_map]
      apply List.map_congr_left
      intro d _
      show lastWrite t (if d.1 == a.uniqueKey then argDesc a else d) = lastWrite (a :: t) d
      by_cases hd : (d.1 == a.uniqueKey) = true
      · have hdk : d.1 = a.uniqueKey := beq_iff_eq.mp hd
        have hba : (a.uniqueKey == d.1) = true := beq_iff_eq.mpr hdk.symm
        have hkeyeq : (argDesc a).1 = d.1 := by
          simp [argDesc, hdk]
        rw [if_pos hd]
        rcases hlt : lastA t d.1 with _ | b
        · have hlt2 : lastA t (argDesc a).1 = none := hkeyeq ▸ hlt
          simp [lastWrite, lastA, hlt, hlt2, hba]
        · have hlt2 : lastA t (argDesc a).1 = some b := hkeyeq ▸ hlt
          simp [lastWrite, lastA, hlt, hlt2]
      · have hdk : ¬(a.uniqueKey = d.1) := fun he => hd (beq_iff_eq.mpr he.symm)
        have hbne : (a.uniqueKey == d.1) = false := beq_eq_false_iff_ne.mpr hdk
        rw [if_neg hd]
        rcases hlt : lastA t d.1 with _ | b
        · simp [lastWrite, lastA, hlt, hbne]
        · simp [lastWrite, lastA, hlt]

/-- After a pass, every entry of the result whose key the list wrote holds
the last writer's descriptor. -/
theorem foldl_gStep_lastWrite :
    ∀ (L : List UpsertArgs) (ds : List (String × String × Int × String)),
      ∀ d ∈ L.foldl gStep ds, ∀ b, lastA L d.1 = some b → d = argDesc b
  | [], _, _, _, b, hb => by cases hb
  | a :: t, ds, d, hd, b, hb => by
      rcases hlt : lastA t d.1 with _ | b2
      · have hone : (if a.uniqueKey == d.1 then some a else none) = some b := by
          simpa [lastA, hlt] using hb
        by_cases hbeq : (a.uniqueKey == d.1) = true
        · rw [if_pos hbeq] at hone
          have hba : b = a := (Option.some.inj hone).symm
          subst hba
          have hkh : keyHolds (t.foldl gStep (gStep ds b)) b :=
            foldl_gStep_preserves b t (gStep ds b)
              (fun x hx he => lastA_none t d.1 hlt x hx (he.trans (beq_iff_eq.mp hbeq)))
              (gStep_establishes ds b)
          exact hkh.2 d hd (beq_iff_eq.mp hbeq).symm
        · rw [if_neg hbeq] at hone
          cases hone
      · have hbb : b2 = b := by
          have h2 : (some b2 : Option UpsertArgs) = some b := by
            simpa [lastA, hlt] using hb
          exact Option.some.inj h2
        subst hbb
        exact foldl_gStep_lastWrite t (gStep ds a) d hd b2 hlt

/-- Replaying the same pass is the identity: every entry already carries
its key's last write, and no key is newly inserted. -/
theorem foldl_gStep_idem (L : List UpsertArgs)
    (ds : List (String × String × Int × String)) :
    L.foldl gStep (L.foldl gStep ds) = L.foldl gStep ds := by
  have hpres : ∀ a ∈ L, (L.foldl gStep ds).any (fun d => d.1 == a.uniqueKey) = true :=
    foldl_gStep_present L ds
  rw [foldl_gStep_as_map L (L.foldl gStep ds) hpres]
  have hid : ∀ d ∈ L.foldl gStep ds, lastWrite L d = d := by
    intro d hd
    rcases hl : lastA L d.1 with _ | b
    · simp [lastWrite, hl]
    · have hdb := foldl_gStep_lastWrite L ds d hd b hl
      simp [lastWrite, hl, ← hdb]
  simpa using List.map_congr_left hid

/-- With pairwise-distinct keys, searching for a member's key finds it. -/
theorem find?_key_of_mem (r : Proxy) (k : String) (hk : r.uniqueKey = k) :
    ∀ l : List Proxy, r ∈ l → (l.map Proxy.uniqueKey).Nodup →
      l.find? (fun q => q.uniqueKey == k) = some r
  | [], hmem, _ => absurd hmem (List.not_mem_nil r)
  | x :: t, hmem, hnod => by
      rw [List.map_cons, List.nodup_cons] at hnod
      rcases List.mem_cons.mp hmem with hx | ht
      · subst hx
        simp [List.find?, hk]
      · have hxne : ¬(x.uniqueKey = k) := by
          intro he
          refine hnod.1 ?_
          rw [he, ← hk]
          exact List.mem_map_of_mem Proxy.uniqueKey ht
        have h2 : (x.uniqueKey == k) = false := beq_eq_false_iff_ne.mpr hxne
        simp only [List.find?, h2]
        exact find?_key_of_mem r k hk t ht hnod.2

/-- C6: upserting an entry whose fingerprint already exists in the
catalog updates the existing row's credential, min_time, change_url (and
last_changed/error/updated_at), leaves its used and running counters
unchanged, returns the existing row's id, and does not grow the catalog;
consequently upserting the same parsed list twice leaves the catalog size
and every row's fingerprint/credential/min_time/change_url identical. -/
theorem load_idempotent (c : Catalog) (a : UpsertArgs) (now n1 n2 : Int)
    (L : List UpsertArgs) (r : Proxy) :
    ((c.rows.map Proxy.uniqueKey).Nodup → r ∈ c.rows → r.uniqueKey = a.uniqueKey →
      (upsertProxy c a now).2 = r.id ∧
      (upsertProxy c a now).1.rows.length = c.rows.length ∧
      { r with proxyStr := a.proxyStr,
               minTime := a.minTime,
               changeUrl := a.changeUrl,
               unique := a.unique,
               lastChanged := a.lastChanged,
               error := a.proxyError,
               updatedAt := now } ∈ (upsertProxy c a now).1.rows ∧
      (∀ q ∈ c.rows, ¬(q.uniqueKey = a.uniqueKey) → q ∈ (upsertProxy c a now).1.rows)) ∧
    (descOf (upsertAll (upsertAll c L n1) L n2) = descOf (upsertAll c L n1) ∧
      (upsertAll (upsertAll c L n1) L n2).rows.length = (upsertAll c L n1).rows.length) := by
  constructor
  · intro hnod hmem hkey
    have hfind : c.rows.find? (fun q => q.uniqueKey == a.uniqueKey) = some r :=
      find?_key_of_mem r a.uniqueKey hkey c.rows hmem hnod
    refine ⟨?_, ?_, ?_, ?_⟩
    · simp [upsertProxy, hfind]
    · simp [upsertProxy, hfind]
    · simp only [upsertProxy, hfind]
      have himg : (fun q : Proxy =>
          if q.uniqueKey == a.uniqueKey then
            { q with proxyStr := a.proxyStr,
                     minTime := a.minTime,
                     changeUrl := a.changeUrl,
                     unique := a.unique,
                     lastChanged := a.lastChanged,
                     error := a.proxyError,
                     updatedAt := now }
          else q) r =
          { r with proxyStr := a.proxyStr,
                   minTime := a.minTime,
                   changeUrl := a.changeUrl,
                   unique := a.unique,
                   lastChanged := a.lastChanged,
                   error := a.proxyError,
                   updatedAt := now } := if_pos (beq_iff_eq.mpr hkey)
      have hm := List.mem_map_of_mem (fun q : Proxy =>
          if q.uniqueKey == a.uniqueKey then
            { q with proxyStr := a.proxyStr,
                     minTime := a.minTime,
                     changeUrl := a.changeUrl,
                     unique := a.unique,
                     lastChanged := a.lastChanged,
                     error := a.proxyError,
                     updatedAt := now }
          else q) hmem
      rwa [himg] at hm
    · intro q hq hqne
      simp only [upsertProxy, hfind]
      have himg : (fun q : Proxy =>
          if q.uniqueKey == a.uniqueKey then
            { q with proxyStr := a.proxyStr,
                     minTime := a.minTime,
                     changeUrl := a.changeUrl,
                     unique := a.unique,
                     lastChanged := a.lastChanged,
                     error := a.proxyError,
                     updatedAt := now }
          else q) q = q := if_neg (by simp [hqne])
      have hm := List.mem_map_of_mem (fun q : Proxy =>
          if q.uniqueKey == a.uniqueKey then
            { q with proxyStr := a.proxyStr,
                     minTime := a.minTime,
                     changeUrl := a.changeUrl,
                     unique := a.unique,
                     lastChanged := a.lastChanged,
                     error := a.proxyError,
                     updatedAt := now }
          else q) hq
      rwa [himg] at hm
  · have hmain : descOf (upsertAll (upsertAll c L n1) L n2) = descOf (upsertAll c L n1) := by
      rw [descOf_upsertAll L (upsertAll c L n1) n2, descOf_upsertAll L c n1]
      exact foldl_gStep_idem L (descOf c)
    refine ⟨hmain, ?_⟩
    have hlen := congrArg List.length hmain
    simpa [descOf] using hlen

/-- A static row already in the catalog, currently running with `used=4`. -/
def rowW : Proxy :=
  { id := 1, type := ProxyType.static, proxyStr := "1.2.3.4:8080", apiKey := "",
    uniqueKey := "kw", minTime := 0, changeUrl := "", running := true, used := 4,
    unique := true, lastChanged := 50, lastIP := "", error := "", updatedAt := 0 }

/-- A one-row catalog holding `rowW`. -/
def cW : Catalog := { rows := [rowW], nextId := 2 }

/-- An upsert argument colliding with `rowW` on the fingerprint. -/
def argW : UpsertArgs :=
  { pType := ProxyType.static, proxyStr := "1.2.3.4:9090", apiKey := "", changeUrl := "",
    minTime := 7, uniqueKey := "kw", unique := true, lastChanged := 60, proxyError := "" }

/-- C6 witness: the colliding upsert returns id 1 without growing the
catalog, and replaying the one-element list leaves the descriptors
unchanged. -/
theorem load_idempotent_witness :
    (upsertProxy cW argW 100).2 = 1 ∧
      (upsertProxy cW argW 100).1.rows.length = 1 ∧
      descOf (upsertAll (upsertAll cW [argW] 100) [argW] 200) =
        descOf (upsertAll cW [argW] 100) := by
  have h := load_idempotent cW argW 100 100 200 [argW] rowW
  have h1 := h.1 (by decide) (by decide) rfl
  exact ⟨by simpa [rowW] using h1.1, by simpa [cW] using h1.2.1, h.2.1⟩

/-! Sample values used by concrete witnesses and counterexamples. -/

/-- A mobilehop row as loaded (`running=false`, `used=7`, no error). -/
def pMh : Proxy :=
  { id := 3, type := ProxyType.mobilehop, proxyStr := "1.2.3.4:8080:u:p", apiKey := "",
    uniqueKey := "k1", minTime := 0, changeUrl := "http://reset.example/x", running := false,
    used := 7, unique := true, lastChanged := 0, lastIP := "", error := "", updatedAt := 0 }

/-- An acquire environment whose reset endpoint answers HTTP 202. -/
def envStatus202 : AcquireEnv :=
  { tmNew := CallRes2.errC "unused", kiotNew := CallRes2.errC "unused",
    mobile := HttpRes.status 202, rngOk := true, entropy := [], nanos := 0 }

/-- An acquire environment whose reset endpoint answers HTTP 204. -/
def envStatus204 : AcquireEnv :=
  { tmNew := CallRes2.errC "unused", kiotNew := CallRes2.errC "unused",
    mobile := HttpRes.status 204, rngOk := true, entropy := [], nanos := 0 }

/-! Helper lemmas. -/

/-- A row produced by the selection fold is the accumulator or a member of
the candidate list. -/
theorem foldl_pickBetter_mem (l : List Proxy) (acc : Option Proxy) (q : Proxy)
    (h : l.foldl pickBetter acc = some q) : acc = some q ∨ q ∈ l := by
  induction l generalizing acc with
  | nil => exact Or.inl h
  | cons x xs ih =>
      rcases ih (pickBetter acc x) h with h2 | h2
      · cases acc with
        | none =>
            right
            have hx : x = q := by
              simpa [pickBetter] using h2
            exact hx ▸ List.mem_cons_self x xs
        | some r =>
            by_cases hlt : selKeyLt x r = true
            · right
              have hx : x = q := by
                simpa [pickBetter, hlt] using h2
              exact hx ▸ List.mem_cons_self x xs
            · left
              simpa [pickBetter, hlt] using h2
      · exact Or.inr (List.mem_cons_of_mem x h2)

/-- Whatever `selectCandidate` returns satisfies the eligibility
predicate of the query. -/
theorem selectCandidate_eligible (maxUsed now : Int) (c : Catalog) (q : Proxy)
    (h : selectCandidate maxUsed now c = some q) : eligible maxUsed now q = true := by
  unfold selectCandidate at h
  rcases foldl_pickBetter_mem _ _ _ h with h2 | h2
  · cases h2
  · exact (List.mem_filter.mp h2).2

/-- Appending to a non-empty string yields a non-empty string. -/
theorem append_ne_empty_left : ∀ (s t : String), ¬(s = "") → ¬(s ++ t = "")
  | ⟨d⟩, ⟨e⟩, hs, h => by
      apply hs
      have hde : d ++ e = [] := congrArg String.data h
      have hd : d = [] := (List.append_eq_nil.mp hde).1
      subst hd
      rfl

/-- A row with a non-empty `error` fails the eligibility predicate. -/
theorem eligible_false_of_error (maxUsed now : Int) (p : Proxy)
    (h : ¬(p.error = "")) : eligible maxUsed now p = false := by
  have hb : (p.error == "") = false := by
    rw [beq_eq_false_iff_ne]
    exact h
  simp [eligible, hb]

/-- Searching by id commutes with an id-preserving row transformation. -/
theorem find?_id_map (f : Proxy → Proxy) (hf : ∀ q, (f q).id = q.id) (i : Int) :
    ∀ l : List Proxy,
      (l.map f).find? (fun q => q.id == i) = Option.map f (l.find? (fun q => q.id == i))
  | [] => rfl
  | x :: t => by
      by_cases hx : x.id = i
      · have h1 : ((f x).id == i) = true := by
          rw [hf x]
          exact beq_iff_eq.mpr hx
        have h2 : (x.id == i) = true := beq_iff_eq.mpr hx
        simp [List.find?, h1, h2]
      · have h1 : ((f x).id == i) = false := by
          rw [hf x]
          exact beq_eq_false_iff_ne.mpr hx
        have h2 : (x.id == i) = false := beq_eq_false_iff_ne.mpr hx
        simp only [List.map, List.find?, h1, h2]
        exact find?_id_map f hf i t

/-- With pairwise-distinct ids, searching for a member's id finds it. -/
theorem find?_id_of_mem (r : Proxy) :
    ∀ l : List Proxy, r ∈ l → (l.map Proxy.id).Nodup →
      l.find? (fun q => q.id == r.id) = some r
  | [], hmem, _ => absurd hmem (List.not_mem_nil r)
  | x :: t, hmem, hnod => by
      rcases List.mem_cons.mp hmem with hx | ht
      · subst hx
        simp [List.find?]
      · have hxne : ¬(x.id = r.id) := by
          intro he
          have : r.id ∈ t.map Proxy.id := List.mem_map_of_mem Proxy.id ht
          rw [← he] at this
          exact (List.nodup_cons.mp (by simpa using hnod)).1 this
        have h2 : (x.id == r.id) = false := beq_eq_false_iff_ne.mpr hxne
        simp only [List.find?, h2]
        exact find?_id_of_mem r t ht (List.nodup_cons.mp (by simpa using hnod)).2

/-- Searching for a fresh id skips every row whose id is smaller. -/
theorem find?_id_append_fresh (n : Int) (row : Proxy) (hrow : row.id = n) :
    ∀ l : List Proxy, (∀ q ∈ l, q.id < n) →
      (l ++ [row]).find? (fun q => q.id == n) = some row
  | [], _ => by simp [List.find?, hrow]
  | x :: t, hlt => by
      have hx : (x.id == n) = false :=
        beq_eq_false_iff_ne.mpr (by have := hlt x (List.mem_cons_self x t); omega)
      simp only [List.cons_append, List.find?, hx]
      exact find?_id_append_fresh n row hrow t (fun q hq => hlt q (List.mem_cons_of_mem x hq))

/-- The row `upsertProxy` reports (by id) carries the argument's
fingerprint and descriptor fields, while `used` and `running` are those
of the pre-existing row on collision and `0`/`false` on a fresh insert. -/
theorem upsert_findRow (c : Catalog) (a : UpsertArgs) (now : Int)
    (hids : ∀ r ∈ c.rows, r.id < c.nextId)
    (hidn : (c.rows.map Proxy.id).Nodup) :
    ∃ row : Proxy, findRow (upsertProxy c a now).1 (upsertProxy c a now).2 = some row ∧
      row.uniqueKey = a.uniqueKey ∧ row.proxyStr = a.proxyStr ∧ row.minTime = a.minTime ∧
      row.changeUrl = a.changeUrl ∧ row.lastChanged = a.lastChanged ∧
      row.error = a.proxyError ∧ row.unique = a.unique ∧ row.updatedAt = now := by
  rcases hfind : c.rows.find? (fun r => r.uniqueKey == a.uniqueKey) with _ | r
  · refine ⟨{ id := c.nextId,
              type := a.pType,
              proxyStr := a.proxyStr,
              apiKey := a.apiKey,
              uniqueKey := a.uniqueKey,
              minTime := a.minTime,
              changeUrl := a.changeUrl,
              running := false,
              used := 0,
              unique := a.unique,
              lastChanged := a.lastChanged,
              lastIP := "",
              error := a.proxyError,
              updatedAt := now }, ?_, rfl, rfl, rfl, rfl, rfl, rfl, rfl, rfl⟩
    simp only [upsertProxy, hfind, findRow]
    exact find?_id_append_fresh c.nextId _ rfl c.rows hids
  · have hmem : r ∈ c.rows := List.mem_of_find?_eq_some hfind
    have hkey : (r.uniqueKey == a.uniqueKey) = true := by
      simpa using List.find?_some hfind
    refine ⟨{ r with proxyStr := a.proxyStr,
                     minTime := a.minTime,
                     changeUrl := a.changeUrl,
                     unique := a.unique,
                     lastChanged := a.lastChanged,
                     error := a.proxyError,
                     updatedAt := now }, ?_, by simpa using hkey, rfl, rfl, rfl, rfl, rfl, rfl, rfl⟩
    simp only [upsertProxy, hfind, findRow]
    have hpres : ∀ q : Proxy,
        ((fun q : Proxy =>
          if q.uniqueKey == a.uniqueKey then
            { q with proxyStr := a.proxyStr, minTime := a.minTime, changeUrl := a.changeUrl,
                     unique := a.unique, lastChanged := a.lastChanged, error := a.proxyError,
                     updatedAt := now }
          else q) q).id = q.id := by
      intro q
      by_cases hq : (q.uniqueKey == a.uniqueKey) = true <;> simp [hq]
    rw [find?_id_map _ hpres r.id c.rows, find?_id_of_mem r c.rows hmem hidn]
    exact congrArg some (if_pos hkey)

/-! Claim theorems. -/

/-- C1: `GetAvailableProxy` treats an entry as eligible iff its `error` is
empty and either it is non-unique, or it is `static` with `running=false`
and `used < maxUsed`, or it is `mobilehop` with `running=false`, or it is
of any other kind with `running=false` and (`used < maxUsed` or
`min_time = 0` or `now - last_changed ≥ min_time`). -/
theorem acquire_eligibility_iff (maxUsed now : Int) (p : Proxy) :
    eligible maxUsed now p = true ↔
      (p.error = "" ∧
        (p.unique = false ∨
          (p.type = ProxyType.static ∧ p.running = false ∧ p.used < maxUsed) ∨
          (p.type = ProxyType.mobilehop ∧ p.running = false) ∨
          (p.type ≠ ProxyType.static ∧ p.type ≠ ProxyType.mobilehop ∧ p.running = false ∧
            (p.used < maxUsed ∨ p.minTime = 0 ∨ now - p.lastChanged ≥ p.minTime)))) := by
  simp only [eligible, Bool.and_eq_true, Bool.or_eq_true, Bool.not_eq_true', beq_iff_eq,
    decide_eq_true_eq]
  cases hu : p.unique <;> cases hr : p.running <;> (simp_all; try tauto)

/-- C8: `ReleaseProxy` clears `running` and bumps `updated_at` (in the
cache unconditionally, in the durable row whenever the SQL update lands),
leaves `used`, the credential, `last_changed`, `min_time` and `error`
unchanged, never decrements `used`, and returns no error to the caller
even when the database update fails. -/
theorem releaseProxy_frame (dbOk : Bool) (now : Int) (p : Proxy) :
    (releaseProxy dbOk now p p).2.2 = Except.ok () ∧
    (releaseProxy dbOk now p p).2.1.running = false ∧
    (releaseProxy dbOk now p p).2.1.updatedAt = now ∧
    (releaseProxy dbOk now p p).2.1.used = p.used ∧
    (releaseProxy dbOk now p p).2.1.proxyStr = p.proxyStr ∧
    (releaseProxy dbOk now p p).2.1.lastChanged = p.lastChanged ∧
    (releaseProxy dbOk now p p).2.1.minTime = p.minTime ∧
    (releaseProxy dbOk now p p).2.1.error = p.error ∧
    (releaseProxy dbOk now p p).1.used = p.used ∧
    (releaseProxy dbOk now p p).1.proxyStr = p.proxyStr ∧
    (releaseProxy dbOk now p p).1.lastChanged = p.lastChanged ∧
    (releaseProxy dbOk now p p).1.minTime = p.minTime ∧
    (releaseProxy dbOk now p p).1.error = p.error ∧
    (dbOk = true →
      (releaseProxy dbOk now p p).1.running = false ∧
        (releaseProxy dbOk now p p).1.updatedAt = now) ∧
    (dbOk = false → (releaseProxy dbOk now p p).1 = p) := by
  cases dbOk <;> simp [releaseProxy]

/-- C8 witness: the release frame conditions at a concrete row. -/
theorem releaseProxy_frame_witness :
    (releaseProxy true 9 pMh pMh).2.2 = Except.ok () ∧
    (releaseProxy true 9 pMh pMh).1.running = false ∧
    (releaseProxy true 9 pMh pMh).1.used = 7 := by
  have h := releaseProxy_frame true 9 pMh
  exact ⟨h.1, (h.2.2.2.2.2.2.2.2.2.2.2.2.2.1 rfl).1, h.2.2.2.1⟩

/-- C2: when a tmproxy or kiotproxy rotation inside `GetAvailableProxy`
fails (transport error or vendor error response), the call returns a
rotation error, stores the same non-empty message in `error`, leaves the
entry `running = true`, the quarantined row is ineligible and can never be
returned by the selection query, and `ClearProxyError` resets its `error`
to empty. -/
theorem rotation_failure_quarantine (env : AcquireEnv) (now : Int) (p : Proxy)
    (hu : p.unique = true) (ha : ¬(p.apiKey = ""))
    (hcr : p.minTime = 0 ∨ now - p.lastChanged ≥ p.minTime)
    (hkind :
      (p.type = ProxyType.tmproxy ∧ ∀ r, env.tmNew = CallRes2.resp r → ¬(r.code = 0)) ∨
      (p.type = ProxyType.kiotproxy ∧ ∀ r, env.kiotNew = CallRes2.resp r → ¬(r.success = true))) :
    ∃ msg : String, ¬(msg = "") ∧
      (acquireSelected env now p).2 = Except.error msg ∧
      (acquireSelected env now p).1.error = msg ∧
      (acquireSelected env now p).1.running = true ∧
      (∀ maxUsed t, eligible maxUsed t (acquireSelected env now p).1 = false) ∧
      (∀ maxUsed t c, ¬(selectCandidate maxUsed t c = some (acquireSelected env now p).1)) ∧
      (∀ t2, (clearProxyError t2 (acquireSelected env now p).1).error = "") := by
  have hci : (p.minTime == 0 || decide (now - p.lastChanged ≥ p.minTime)) = true := by
    rcases hcr with h | h <;> simp [h]
  have main : ∃ msg : String, ¬(msg = "") ∧
      acquireSelected env now p =
        ({ p with running := true, updatedAt := now, error := msg }, Except.error msg) := by
    rcases hkind with ⟨hk, hf⟩ | ⟨hk, hf⟩
    · cases henv : env.tmNew with
      | errC e =>
          refine ⟨"GetNewProxy failed: " ++ e, append_ne_empty_left _ _ (by decide), ?_⟩
          simp [acquireSelected, hu, hk, hci, ha, henv]
      | resp r =>
          have hc := hf r henv
          refine ⟨"tmproxy api returned code: " ++ toString r.code ++ ", message: " ++ r.message,
            append_ne_empty_left _ _ (append_ne_empty_left _ _ (append_ne_empty_left _ _
              (by decide))), ?_⟩
          simp [acquireSelected, hu, hk, hci, ha, henv, hc]
    · cases henv : env.kiotNew with
      | errC e =>
          refine ⟨"GetNewProxy failed: " ++ e, append_ne_empty_left _ _ (by decide), ?_⟩
          simp [acquireSelected, hu, hk, hci, ha, henv]
      | resp r =>
          have hc := hf r henv
          refine ⟨"kiotproxy api returned code: " ++ toString r.code ++ ", message: " ++
              r.message ++ ", error: " ++ r.errStr,
            append_ne_empty_left _ _ (append_ne_empty_left _ _ (append_ne_empty_left _ _
              (append_ne_empty_left _ _ (append_ne_empty_left _ _ (by decide))))), ?_⟩
          simp [acquireSelected, hu, hk, hci, ha, henv, hc]
  rcases main with ⟨msg, hne, hacq⟩
  refine ⟨msg, hne, ?_, ?_, ?_, ?_, ?_, ?_⟩
  · rw [hacq]
  · rw [hacq]
  · rw [hacq]
  · intro maxUsed t
    rw [hacq]
    exact eligible_false_of_error maxUsed t _ hne
  · intro maxUsed t c hsel
    have he := selectCandidate_eligible maxUsed t c _ hsel
    rw [hacq] at he
    have hf2 := eligible_false_of_error maxUsed t
      ({ p with running := true, updatedAt := now, error := msg }) hne
    simp [hf2] at he
  · intro t2
    rw [hacq]
    simp [clearProxyError]

/-- A tmproxy row as loaded (`running=false`, no error, `min_time=0`). -/
def pTm : Proxy :=
  { id := 1, type := ProxyType.tmproxy, proxyStr := "1.1.1.1:5000:u:p", apiKey := "KEY",
    uniqueKey := "k2", minTime := 0, changeUrl := "", running := false, used := 2,
    unique := true, lastChanged := 0, lastIP := "", error := "", updatedAt := 0 }

/-- An acquire environment whose tmproxy rotation call fails. -/
def envTmFail : AcquireEnv :=
  { tmNew := CallRes2.errC "dial tcp: timeout", kiotNew := CallRes2.errC "unused",
    mobile := HttpRes.netError "unused", rngOk := true, entropy := [], nanos := 0 }

/-- C2 witness: a failing tmproxy rotation on a concrete entry leaves it
running and ineligible for every later selection. -/
theorem rotation_failure_quarantine_witness :
    (acquireSelected envTmFail 500 pTm).1.running = true ∧
      (∀ maxUsed t, eligible maxUsed t (acquireSelected envTmFail 500 pTm).1 = false) := by
  obtain ⟨msg, hne, hres, herr, hrun, helig, hsel, hclr⟩ :=
    rotation_failure_quarantine envTmFail 500 pTm rfl (by decide) (Or.inl rfl)
      (Or.inl ⟨rfl, by intro r h; simp [envTmFail] at h⟩)
  exact ⟨hrun, helig⟩

/-- C3: immediately after a rotation performed inside `GetAvailableProxy`
succeeds — unique sticky with the interval elapsed, tmproxy or kiotproxy
with a successful `GetNewProxy`, or mobilehop with a successful reset —
the stored entry has `used = 1`, an empty `error`, and
`last_changed = now`. -/
theorem rotation_resets_used (env : AcquireEnv) (now : Int) (p : Proxy)
    (hu : p.unique = true)
    (hrot :
      (p.type = ProxyType.sticky ∧ (p.minTime = 0 ∨ now - p.lastChanged ≥ p.minTime)) ∨
      (p.type = ProxyType.tmproxy ∧ (p.minTime = 0 ∨ now - p.lastChanged ≥ p.minTime) ∧
        ¬(p.apiKey = "") ∧ ∃ r, env.tmNew = CallRes2.resp r ∧ r.code = 0) ∨
      (p.type = ProxyType.kiotproxy ∧ (p.minTime = 0 ∨ now - p.lastChanged ≥ p.minTime) ∧
        ¬(p.apiKey = "") ∧ ∃ r, env.kiotNew = CallRes2.resp r ∧ r.success = true) ∨
      (p.type = ProxyType.mobilehop ∧ ¬(p.changeUrl = "") ∧
        (env.mobile = HttpRes.status 200 ∨ env.mobile = HttpRes.status 204))) :
    (acquireSelected env now p).1.used = 1 ∧
      (acquireSelected env now p).1.error = "" ∧
      (acquireSelected env now p).1.lastChanged = now := by
  rcases hrot with ⟨hk, hcr⟩ | ⟨hk, hcr, ha, r, henv, hok⟩ | ⟨hk, hcr, ha, r, henv, hok⟩ |
    ⟨hk, hc, hm⟩
  · have hci : (p.minTime == 0 || decide (now - p.lastChanged ≥ p.minTime)) = true := by
      rcases hcr with h | h <;> simp [h]
    simp [acquireSelected, hu, hk, hci]
  · have hci : (p.minTime == 0 || decide (now - p.lastChanged ≥ p.minTime)) = true := by
      rcases hcr with h | h <;> simp [h]
    simp [acquireSelected, hu, hk, hci, ha, henv, hok]
  · have hci : (p.minTime == 0 || decide (now - p.lastChanged ≥ p.minTime)) = true := by
      rcases hcr with h | h <;> simp [h]
    simp [acquireSelected, hu, hk, hci, ha, henv, hok]
  · have hbe : (p.changeUrl == "") = false := by
      rw [beq_eq_false_iff_ne]
      exact hc
    rcases hm with hm | hm <;> simp [acquireSelected, hu, hk, hc, hbe, callChangeURL, hm]

/-- A unique sticky row whose rotation interval has elapsed at `now=200`. -/
def pStickyU : Proxy :=
  { id := 2, type := ProxyType.sticky, proxyStr := "t.com:3010:user-${random}:pw", apiKey := "",
    uniqueKey := "k3", minTime := 2, changeUrl := "", running := false, used := 2,
    unique := true, lastChanged := 100, lastIP := "", error := "", updatedAt := 0 }

/-- An acquire environment with working RNG bytes for sticky rotation. -/
def envRng : AcquireEnv :=
  { tmNew := CallRes2.errC "unused", kiotNew := CallRes2.errC "unused",
    mobile := HttpRes.netError "unused", rngOk := true, entropy := [171, 205, 18, 52],
    nanos := 0 }

/-- C3 witness: a concrete unique sticky rotation resets `used` to 1 and
stamps `last_changed`. -/
theorem rotation_resets_used_witness :
    (acquireSelected envRng 200 pStickyU).1.used = 1 ∧
      (acquireSelected envRng 200 pStickyU).1.lastChanged = 200 := by
  have h := rotation_resets_used envRng 200 pStickyU rfl
    (Or.inl ⟨rfl, Or.inr (by decide)⟩)
  exact ⟨h.1, h.2.2⟩

/-- C4 counterexample: the claim says any 2xx reset response makes the
mobilehop acquire succeed with `used = 1`; the code accepts only 200 and
204, so at HTTP 202 the call fails, `used` stays 7 and the entry is
released instead. -/
theorem mobilehop_2xx_counterexample :
    (acquireSelected envStatus202 1000 pMh).2 =
        Except.error "callChangeURL failed: change_url returned status 202" ∧
      (acquireSelected envStatus202 1000 pMh).1.used = 7 ∧
      (acquireSelected envStatus202 1000 pMh).1.running = false := by
  decide

/-- C4 amended: for every selected mobilehop entry with a non-empty
`change_url`, the reset endpoint is invoked regardless of
`min_time`/`canRotate`; when the HTTP GET returns status 200 or 204 the
call sets `used = 1`, `last_changed = now`, clears the error, keeps the
entry running and returns the stored credential; on any other status, or
a transport error, it sets `running = false`, leaves `error` and `used`
unchanged, and returns a rotation error. -/
theorem mobilehop_reset_behavior (env : AcquireEnv) (now : Int) (p : Proxy)
    (hk : p.type = ProxyType.mobilehop) (hu : p.unique = true)
    (hc : ¬(p.changeUrl = "")) :
    (∀ c : Int, env.mobile = HttpRes.status c → (c = 200 ∨ c = 204) →
      (acquireSelected env now p).1.used = 1 ∧
      (acquireSelected env now p).1.lastChanged = now ∧
      (acquireSelected env now p).1.error = "" ∧
      (acquireSelected env now p).1.running = true ∧
      (acquireSelected env now p).2 = Except.ok (p.id, p.proxyStr)) ∧
    (∀ c : Int, env.mobile = HttpRes.status c → ¬(c = 200) → ¬(c = 204) →
      (acquireSelected env now p).1.running = false ∧
      (acquireSelected env now p).1.error = p.error ∧
      (acquireSelected env now p).1.used = p.used ∧
      (acquireSelected env now p).2 =
        Except.error ("callChangeURL failed: " ++ ("change_url returned status " ++ toString c))) ∧
    (∀ m : String, env.mobile = HttpRes.netError m →
      (acquireSelected env now p).1.running = false ∧
      (acquireSelected env now p).1.error = p.error ∧
      (acquireSelected env now p).1.used = p.used ∧
      (acquireSelected env now p).2 =
        Except.error ("callChangeURL failed: " ++ ("failed to call change_url: " ++ m))) := by
  have hbe : (p.changeUrl == "") = false := by
    simp [hc]
  refine ⟨?_, ?_, ?_⟩
  · rintro c hm hok
    simp only [acquireSelected, hk, hu, hc, hbe, callChangeURL, hm]
    rcases hok with h200 | h204 <;> subst_vars <;> simp
  · rintro c hm h200 h204
    simp only [acquireSelected, hk, hu, hc, hbe, callChangeURL, hm]
    simp [h200, h204]
  · rintro m hm
    simp only [acquireSelected, hk, hu, hc, hbe, callChangeURL, hm]
    simp

/-- C4 witness: a 204 reset on a concrete mobilehop entry succeeds and
resets `used` to 1. -/
theorem mobilehop_reset_behavior_witness :
    (acquireSelected envStatus204 1000 pMh).1.used = 1 ∧
      (acquireSelected envStatus204 1000 pMh).2 = Except.ok (3, "1.2.3.4:8080:u:p") := by
  have h := mobilehop_reset_behavior envStatus204 1000 pMh rfl rfl (by decide)
  have h1 := h.1 204 rfl (Or.inr rfl)
  exact ⟨h1.1, h1.2.2.2.2⟩

/-- Case analysis of `processStickyProxyStr`: fewer than three
colon-segments leave the credential untouched; with three or more, the
substitution rewrites exactly the third segment, replacing both token
spellings by the same drawn string. -/
theorem processSticky_cases (rngOk : Bool) (entropy : List Nat) (nanos : Nat) (s : String) :
    ((splitChar ':' s).length < 3 → processStickyProxyStr rngOk entropy nanos s = s) ∧
    (3 ≤ (splitChar ':' s).length →
      (containsSub ((splitChar ':' s).getD 2 "") "${random}" = false ∧
          containsSub ((splitChar ':' s).getD 2 "") "{random}" = false →
        processStickyProxyStr rngOk entropy nanos s = s) ∧
      ((containsSub ((splitChar ':' s).getD 2 "") "${random}" = true ∨
          containsSub ((splitChar ':' s).getD 2 "") "{random}" = true) →
        processStickyProxyStr rngOk entropy nanos s =
          String.intercalate ":" ((splitChar ':' s).set 2
            (replaceStr (replaceStr ((splitChar ':' s).getD 2 "") "${random}"
                (generateRandomString rngOk entropy nanos 8)) "{random}"
              (generateRandomString rngOk entropy nanos 8))))) := by
  refine ⟨?_, ?_⟩
  · intro h
    rw [processStickyProxyStr, if_neg (by omega)]
  · intro h3
    refine ⟨?_, ?_⟩
    · rintro ⟨h1, h2⟩
      rw [processStickyProxyStr, if_pos h3]
      simp only [h1, h2]
      simp
    · intro hOr
      rw [processStickyProxyStr, if_pos h3]
      rcases hOr with h1 | h1 <;> simp only [h1] <;> simp

/-- Every character of a hex encoding is a lowercase hex digit. -/
theorem hexEncode_mem_hex (bs : List Nat) :
    ∀ c ∈ (hexEncode bs).data, c ∈ ("0123456789abcdef").data := by
  have hhex : ∀ n, n < 16 → hexChar n ∈ ("0123456789abcdef").data := by
    intro n h
    interval_cases n <;> decide
  induction bs with
  | nil => intro c hc; cases hc
  | cons b t ih =>
      intro c hc
      simp only [hexEncode, List.foldr, List.mem_cons] at hc
      rcases hc with hc | hc | hc
      · exact hc ▸ hhex _ (by omega)
      · exact hc ▸ hhex _ (by omega)
      · exact ih c hc

/-- Length of a hex encoding: two characters per byte. -/
theorem hexEncode_data_length (bs : List Nat) :
    (hexEncode bs).data.length = 2 * bs.length := by
  induction bs with
  | nil => rfl
  | cons b t ih =>
      simp only [hexEncode, List.foldr, List.length_cons] at ih ⊢
      omega

/-- The random string is always lowercase hex. -/
theorem generateRandomString_hex (rngOk : Bool) (entropy : List Nat) (nanos : Nat) :
    ∀ c ∈ (generateRandomString rngOk entropy nanos 8).data,
      c ∈ ("0123456789abcdef").data := by
  intro c hc
  unfold generateRandomString at hc
  cases rngOk with
  | true =>
      simp only [if_pos rfl, strTake] at hc
      exact hexEncode_mem_hex _ c (List.take_subset _ _ hc)
  | false =>
      simp only [Bool.false_eq_true, if_neg, strTake] at hc
      exact hexEncode_mem_hex _ c (List.take_subset _ _ hc)

/-- With a working RNG and at least four delivered bytes, the random
string has exactly eight characters. -/
theorem generateRandomString_length (entropy : List Nat) (nanos : Nat)
    (h4 : 4 ≤ entropy.length) :
    (generateRandomString true entropy nanos 8).length = 8 := by
  have hlen : (hexEncode (List.take 4 entropy)).data.length = 8 := by
    rw [hexEncode_data_length, List.length_take]
    omega
  simp [generateRandomString, strTake, String.length, List.length_take, hlen]

/-- C10: the token substitution of `processStickyProxyStr` operates only
on the third colon-separated segment: both spellings `${random}` and
`{random}` occurring there are replaced by one single drawn string, of
length 8 and lowercase hex when the RNG delivered at least four bytes; a
credential with fewer than three colon-separated segments is returned
completely unchanged even if it contains a token. -/
theorem sticky_substitution_username_only (rngOk : Bool) (entropy : List Nat) (nanos : Nat)
    (s : String) :
    ((splitChar ':' s).length < 3 → processStickyProxyStr rngOk entropy nanos s = s) ∧
    (3 ≤ (splitChar ':' s).length →
      (containsSub ((splitChar ':' s).getD 2 "") "${random}" = true ∨
          containsSub ((splitChar ':' s).getD 2 "") "{random}" = true →
        processStickyProxyStr rngOk entropy nanos s =
          String.intercalate ":" ((splitChar ':' s).set 2
            (replaceStr (replaceStr ((splitChar ':' s).getD 2 "") "${random}"
                (generateRandomString rngOk entropy nanos 8)) "{random}"
              (generateRandomString rngOk entropy nanos 8))))) ∧
    (∀ c ∈ (generateRandomString rngOk entropy nanos 8).data, c ∈ ("0123456789abcdef").data) ∧
    (rngOk = true → 4 ≤ entropy.length →
      (generateRandomString rngOk entropy nanos 8).length = 8) := by
  refine ⟨(processSticky_cases rngOk entropy nanos s).1,
    fun h3 => ((processSticky_cases rngOk entropy nanos s).2 h3).2,
    generateRandomString_hex rngOk entropy nanos, ?_⟩
  rintro rfl h4
  exact generateRandomString_length entropy nanos h4

/-- C10 witness: a two-segment credential containing a token is returned
unchanged, and a three-segment one gets its username token replaced. -/
theorem sticky_substitution_username_only_witness :
    processStickyProxyStr true [171, 205, 18, 52] 0 "a{random}:b" = "a{random}:b" ∧
      processStickyProxyStr true [171, 205, 18, 52] 0 "h:3010:u-{random}:pw" =
        "h:3010:u-abcd1234:pw" := by
  have h := sticky_substitution_username_only true [171, 205, 18, 52] 0 "a{random}:b"
  exact ⟨h.1 (by decide), by decide⟩

/-- A non-unique sticky row whose token sits in the password segment. -/
def pStickyPw : Proxy :=
  { id := 5, type := ProxyType.sticky, proxyStr := "h:p:u:{random}", apiKey := "",
    uniqueKey := "k5", minTime := 0, changeUrl := "", running := false, used := 0,
    unique := false, lastChanged := 0, lastIP := "", error := "", updatedAt := 0 }

/-- C7 counterexample: the claim says every `{random}` token in the
credential is substituted by an 8-character lowercase-hex string; on a
sticky credential whose token sits in the fourth (password) segment the
code returns the credential verbatim, token included (and `{` is not a
hex digit, so no substitution can have produced it). -/
theorem nonunique_sticky_counterexample :
    (acquireSelected envRng 300 pStickyPw).2 = Except.ok (5, "h:p:u:{random}") ∧
      (acquireSelected envRng 300 pStickyPw).1 = pStickyPw ∧
      containsSub "h:p:u:{random}" "{random}" = true ∧
      ¬(Char.ofNat 123 ∈ ("0123456789abcdef").data) := by
  refine ⟨by decide, by decide, by decide, by decide⟩

/-- C7 amended: an acquire that selects a `unique = false` entry modifies
no stored field; when the kind is sticky it returns the credential
processed by the username-only token substitution (third colon-segment,
single fresh random string for both spellings, unchanged when the
credential has fewer than three segments or the token sits elsewhere),
and otherwise it returns the stored credential unchanged. -/
theorem nonunique_acquire_frame (env : AcquireEnv) (now : Int) (p : Proxy)
    (hu : p.unique = false) :
    (acquireSelected env now p).1 = p ∧
    (¬(p.type = ProxyType.sticky) →
      (acquireSelected env now p).2 = Except.ok (p.id, p.proxyStr)) ∧
    (p.type = ProxyType.sticky →
      (acquireSelected env now p).2 =
        Except.ok (p.id, processStickyProxyStr env.rngOk env.entropy env.nanos p.proxyStr) ∧
      ((splitChar ':' p.proxyStr).length < 3 →
        (acquireSelected env now p).2 = Except.ok (p.id, p.proxyStr)) ∧
      (3 ≤ (splitChar ':' p.proxyStr).length →
        (containsSub ((splitChar ':' p.proxyStr).getD 2 "") "${random}" = true ∨
            containsSub ((splitChar ':' p.proxyStr).getD 2 "") "{random}" = true →
          (acquireSelected env now p).2 = Except.ok (p.id,
            String.intercalate ":" ((splitChar ':' p.proxyStr).set 2
              (replaceStr (replaceStr ((splitChar ':' p.proxyStr).getD 2 "") "${random}"
                  (generateRandomString env.rngOk env.entropy env.nanos 8)) "{random}"
                (generateRandomString env.rngOk env.entropy env.nanos 8))))))) := by
  by_cases hk : p.type = ProxyType.sticky
  · refine ⟨by simp [acquireSelected, hu, hk], fun hns => absurd hk hns, fun _ => ⟨?_, ?_, ?_⟩⟩
    · simp [acquireSelected, hu, hk]
    · intro hlt
      have hcase := (processSticky_cases env.rngOk env.entropy env.nanos p.proxyStr).1 hlt
      simp [acquireSelected, hu, hk, hcase]
    · intro h3 hOr
      have hcase :=
        (((processSticky_cases env.rngOk env.entropy env.nanos p.proxyStr).2 h3).2) hOr
      simp [acquireSelected, hu, hk, hcase]
  · refine ⟨by simp [acquireSelected, hu, hk], fun _ => by simp [acquireSelected, hu, hk],
      fun hs => absurd hs hk⟩

/-- C7 witness: acquiring a concrete non-unique sticky entry leaves the
row untouched and returns the substituted credential. -/
theorem nonunique_acquire_frame_witness :
    (acquireSelected envRng 300 pStickyPw).1 = pStickyPw ∧
      (acquireSelected envRng 300 pStickyPw).2 =
        Except.ok (5, processStickyProxyStr true [171, 205, 18, 52] 0 "h:p:u:{random}") := by
  have h := nonunique_acquire_frame envRng 300 pStickyPw rfl
  exact ⟨h.1, (h.2.2 rfl).1⟩

/-- The empty catalog. -/
def c0 : Catalog := { rows := [], nextId := 1 }

/-- A load environment whose vendor calls all fail (irrelevant for kinds
that perform no vendor call). -/
def envLoadFail : LoadEnv :=
  { tmCurrent := CallRes.errC "unused", tmNew := CallRes.errC "unused",
    kiotCurrent := CallRes.errC "unused", kiotNew := CallRes.errC "unused" }

/-- C5 counterexample: the claim counts `ipv4xoay` among the vendor-keyed
kinds whose fingerprint is `MD5(api_key)`; loading `ipv4xoay|mykey|60`
stores the MD5 of the empty credential string instead, which differs from
`MD5("mykey")`. -/
theorem fingerprint_ipv4xoay_counterexample :
    ((loadLine envLoadFail 1000 c0 "ipv4xoay|mykey|60").toOption.bind
        (fun x => findRow x.1 x.2)).map Proxy.uniqueKey = some (md5Hex "") ∧
      ((loadLine envLoadFail 1000 c0 "ipv4xoay|mykey|60").toOption.bind
        (fun x => findRow x.1 x.2)).map Proxy.type = some ProxyType.ipv4xoay ∧
      ((loadLine envLoadFail 1000 c0 "ipv4xoay|mykey|60").toOption.bind
        (fun x => findRow x.1 x.2)).map Proxy.apiKey = some "mykey" ∧
      ¬(md5Hex "" = md5Hex "mykey") := by
  refine ⟨by decide, by decide, by decide, by decide⟩

/-- C5 amended: for every line `LoadProxiesFromList` loads, the stored
fingerprint is the hex MD5 of the api key exactly for the `tmproxy` and
`kiotproxy` kinds; for `sticky` it is the MD5 of the raw `parts[1]`
template (still containing the random token); for every other kind —
`static`, `mobilehop` and also `ipv4xoay` — it is the MD5 of the stored
credential string. -/
theorem fingerprint_rule (env : LoadEnv) (now : Int) (c : Catalog) (s : String)
    (pl : ParsedLine) (x : Catalog × Int)
    (hids : ∀ r ∈ c.rows, r.id < c.nextId)
    (hidn : (c.rows.map Proxy.id).Nodup)
    (hp : parseLine s = Except.ok pl)
    (hl : loadLine env now c s = Except.ok x) :
    (findRow x.1 x.2).map Proxy.uniqueKey =
      some (if pl.pType = ProxyType.tmproxy ∨ pl.pType = ProxyType.kiotproxy then
              md5Hex pl.apiKey
            else if pl.pType = ProxyType.sticky then md5Hex (pl.parts.getD 1 "")
            else md5Hex pl.proxyStr) := by
  simp only [loadLine, hp] at hl
  rw [Except.ok.injEq] at hl
  subst hl
  obtain ⟨row, hfind, hkey, _⟩ := upsert_findRow c _ now hids hidn
  rw [hfind]
  simp only [Option.map_some']
  rw [Option.some.injEq]
  rw [hkey]
  cases hk : pl.pType <;> simp [hk, uniqueKeyFor]

/-- The parse of the sticky line used by the C5 witness. -/
def plSticky : ParsedLine :=
  { pType := ProxyType.sticky, parts := ["sticky", "h:3010:u-{random}:pw"],
    proxyStr := "h:3010:u-{random}:pw", apiKey := "", changeUrl := "", minTime := 0,
    unique := false }

/-- The catalog produced by loading that sticky line at `now = 1000`. -/
def loadedSticky : Catalog × Int :=
  ({ rows := [{ id := 1, type := ProxyType.sticky, proxyStr := "h:3010:u-{random}:pw",
                apiKey := "", uniqueKey := md5Hex "h:3010:u-{random}:pw", minTime := 0,
                changeUrl := "", running := false, used := 0, unique := false,
                lastChanged := 1000, lastIP := "", error := "", updatedAt := 1000 }],
     nextId := 2 }, 1)

/-- C5 witness: loading a concrete sticky line stores the MD5 of the raw
credential template as the fingerprint. -/
theorem fingerprint_rule_witness :
    (findRow loadedSticky.1 loadedSticky.2).map Proxy.uniqueKey =
      some (md5Hex "h:3010:u-{random}:pw") := by
  have h := fingerprint_rule envLoadFail 1000 c0 "sticky|h:3010:u-{random}:pw" plSticky
    loadedSticky (by simp [c0]) (by simp [c0]) (by decide) (by decide)
  simpa [plSticky] using h

/-- C9: when loading a tmproxy or kiotproxy line whose `getCurrent` call
returns a valid, non-stale credential with a remaining cooldown of `r`
seconds, the stored `last_changed` is `now - (min_time - r)` when
`min_time - r ≥ 0` and `now` otherwise. -/
theorem vendor_cooldown_backdate (env : LoadEnv) (now : Int) (c : Catalog) (s : String)
    (pl : ParsedLine) (x : Catalog × Int)
    (hids : ∀ r ∈ c.rows, r.id < c.nextId)
    (hidn : (c.rows.map Proxy.id).Nodup)
    (hp : parseLine s = Except.ok pl)
    (hl : loadLine env now c s = Except.ok x) :
    (∀ resp : TMResp, pl.pType = ProxyType.tmproxy → ¬(pl.apiKey = "") →
      env.tmCurrent = CallRes.resp resp → resp.code = 0 → ¬(resp.timeout = 0) →
      ¬(resp.nextRequest = 0) →
      (findRow x.1 x.2).map Proxy.lastChanged =
        some (if 0 ≤ pl.minTime - resp.nextRequest then
                now - (pl.minTime - resp.nextRequest)
              else now)) ∧
    (∀ resp : KiotResp, pl.pType = ProxyType.kiotproxy → ¬(pl.apiKey = "") →
      env.kiotCurrent = CallRes.resp resp → resp.success = true →
      now < resp.nextRequestAt / 1000 →
      (findRow x.1 x.2).map Proxy.lastChanged =
        some (if 0 ≤ pl.minTime - (resp.nextRequestAt / 1000 - now) then
                now - (pl.minTime - (resp.nextRequestAt / 1000 - now))
              else now)) := by
  simp only [loadLine, hp] at hl
  rw [Except.ok.injEq] at hl
  subst hl
  obtain ⟨row, hfind, hkey, hps, hmt, hcu, hlc, _⟩ := upsert_findRow c _ now hids hidn
  constructor
  · intro resp hk ha henv hc ht hn
    rw [hfind]
    simp only [Option.map_some', Option.some.injEq]
    rw [hlc]
    simp [hk, ha, tmLoadFetch, henv, hc, ht, hn]
    split_ifs <;> omega
  · intro resp hk ha henv hs hlt
    rw [hfind]
    simp only [Option.map_some', Option.some.injEq]
    rw [hlc]
    have hstale : ¬(resp.nextRequestAt / 1000 ≤ now) := by omega
    simp [hk, ha, kiotLoadFetch, henv, hs, hstale]
    split_ifs <;> omega

/-- The parse of the tmproxy line used by the C9 witness. -/
def plTmKey : ParsedLine :=
  { pType := ProxyType.tmproxy, parts := ["tmproxy", "KEY", "370"], proxyStr := "",
    apiKey := "KEY", changeUrl := "", minTime := 370, unique := true }

/-- A valid, non-stale TMProxy `getCurrent` response with 120 s cooldown
remaining. -/
def respTm : TMResp :=
  { code := 0, message := "", timeout := 100, nextRequest := 120,
    https := "1.2.3.4:5000", username := "u", password := "p" }

/-- A load environment whose TMProxy `getCurrent` returns `respTm`. -/
def envTmCur : LoadEnv :=
  { tmCurrent := CallRes.resp respTm, tmNew := CallRes.errC "unused",
    kiotCurrent := CallRes.errC "unused", kiotNew := CallRes.errC "unused" }

/-- The catalog produced by loading `tmproxy|KEY|370` at `now = 1000`
against `envTmCur`: `last_changed` is back-dated to `750`. -/
def loadedTm : Catalog × Int :=
  ({ rows := [{ id := 1, type := ProxyType.tmproxy, proxyStr := "1.2.3.4:5000:u:p",
                apiKey := "KEY", uniqueKey := md5Hex "KEY", minTime := 370, changeUrl := "",
                running := false, used := 0, unique := true, lastChanged := 750,
                lastIP := "", error := "", updatedAt := 1000 }],
     nextId := 2 }, 1)

/-- C9 witness: at `min_time = 370` and remaining cooldown `120`, the
stored `last_changed` is `1000 - 250 = 750`. -/
theorem vendor_cooldown_backdate_witness :
    (findRow loadedTm.1 loadedTm.2).map Proxy.lastChanged = some 750 := by
  have h := (vendor_cooldown_backdate envTmCur 1000 c0 "tmproxy|KEY|370" plTmKey loadedTm
    (by simp [c0]) (by simp [c0]) (by decide) (by decide)).1 respTm rfl (by decide) rfl rfl
    (by decide) (by decide)
  simpa [plTmKey, respTm] using h

end GoProxy

